import Mathlib

/-!
# DVB-T2 latency measurement: the two PID 0x0404 detectors

A shallow embedding of `latency_test_via_tsduck/pid404_rx.c` (the single-thread,
timeout-driven "Cooperative Engine") and `latency_test_via_tsduck/pid404_arm_rx.c`
(the two-thread "Concurrent Engine"), followed by the properties proved about them.

Conventions of the embedding:

* a byte (`uint8_t`) is a `Fin 256`; memory seen through a `uint8_t *` is a function
  from offsets to bytes (`Mem`), so `buffer + i` is `fun k => buffer (i + k)`;
* `size_t` subtraction wraps modulo `2 ^ 64` (`size_sub`); nothing proved below uses
  more of the modulus than that it exceeds the buffer capacity. Additions on `size_t`
  are written without reduction: their results stay within the buffer capacity
  (`stream_buffer_bounds`);
* a `long` is 64 bits wide: every operation on `long` values takes the exact result
  to its two's-complement representative in `[-2 ^ 63, 2 ^ 63)` (`long_wrap`), which
  is what the target computes where C leaves signed overflow undefined; `double`
  values are the exact rationals they stand for;
* everything the program obtains from its environment (clock readings, results of
  `select` and `read`, delivery of SIGINT) is an explicit input; everything it does
  to its environment (GPIO writes, printed lines) is an explicit output event. The
  handler of SIGINT only clears `keep_running`, so a delivery matters only through
  the next test of that flag: the inputs say, for each test, whether SIGINT was
  delivered since the test before it;
* the mutex of the Concurrent Engine makes each block run under it one atomic step
  on the shared variables;
* loops are structurally recursive: the scan loop on a fuel argument (`none` when the
  fuel runs out), the loops that block on input on the list of inputs.
-/

namespace DvbLatency

/-- One byte of the stream (`uint8_t`). -/
abbrev Byte := Fin 256

/-- Memory seen through a `uint8_t *`: the byte stored at each offset. -/
abbrev Mem := Nat → Byte

/-- The record `struct timespec`: whole seconds and nanoseconds. -/
structure Timespec where
  tv_sec : Int
  tv_nsec : Int
deriving DecidableEq, Repr

/-- A timestamp is normalised when its nanosecond field lies in `[0, 10^9)`. -/
def Timespec.normalised (t : Timespec) : Prop :=
  0 ≤ t.tv_nsec ∧ t.tv_nsec < 1000000000

instance (t : Timespec) : Decidable t.normalised := by
  unfold Timespec.normalised
  infer_instance

/-- The instant a timestamp denotes, in nanoseconds. -/
def Timespec.toNanos (t : Timespec) : Int :=
  t.tv_sec * 1000000000 + t.tv_nsec

/-- The least value of a `long` (64 bits). -/
def LONG_MIN : Int := -9223372036854775808

/-- The greatest value of a `long` (64 bits). -/
def LONG_MAX : Int := 9223372036854775807

/-- The value a `long` holds after an operation whose exact result is `x`: the
representative of `x` modulo `2 ^ 64` in `[LONG_MIN, LONG_MAX]`. -/
def long_wrap (x : Int) : Int :=
  (x + 9223372036854775808) % 18446744073709551616 - 9223372036854775808

/-- The modulus of `size_t` arithmetic. -/
def SIZE_MODULUS : Nat := 18446744073709551616

/-- Subtraction of two `size_t` values: it wraps when `b` exceeds `a`. -/
def size_sub (a b : Nat) : Nat :=
  (a + SIZE_MODULUS - b) % SIZE_MODULUS

/-- The effect of `memmove(mem + dst, mem + src, n)` on a block of memory. -/
def memmove (mem : Mem) (dst src n : Nat) : Mem :=
  fun k => if dst ≤ k ∧ k < dst + n then mem (src + (k - dst)) else mem k

/-- The effect of storing the bytes `data` at `mem + off` (what a successful `read`
does with the bytes it returns). -/
def writeAt (mem : Mem) (off : Nat) (data : List Byte) : Mem :=
  fun k => if off ≤ k ∧ k < off + data.length then data.getD (k - off) (mem k) else mem k

/-- The first `n` bytes of a block of memory, in order. -/
def bytesOf (mem : Mem) (n : Nat) : List Byte :=
  (List.range n).map mem

/-- What a call of `read` can give back: a failure (`r < 0`), or the bytes the
descriptor has available, from which `read` takes at most the requested number;
no available byte is the end of the stream (`r == 0`). -/
inductive ReadResult where
  | error
  | bytes (avail : List Byte)
deriving DecidableEq

/-- What a call of `select` can give back: `ret < 0`, `ret == 0`, `ret > 0`. -/
inductive SelectResult where
  | error
  | timeout
  | ready
deriving DecidableEq

/-- A transport packet with the given two identifier bytes and a payload of zeros. -/
def samplePacket (b1 b2 : Byte) : List Byte :=
  [0x47, b1, b2] ++ List.replicate 185 0

/-! ## The Cooperative Engine: `pid404_rx.c` -/

namespace Pid404Rx

/-- `#define TS_PACKET_SIZE 188`. -/
def TS_PACKET_SIZE : Nat := 188

/-- `#define PID_TO_WATCH 0x0404`. -/
def PID_TO_WATCH : Nat := 0x0404

/-- `#define TIMEOUT_SEC 20.0`. -/
def TIMEOUT_SEC : ℚ := 20

/-- The capacity of the stream buffer, `sizeof(buffer)` for
`uint8_t buffer[64 * TS_PACKET_SIZE]`. -/
def BUFFER_SIZE : Nat := 64 * TS_PACKET_SIZE

/-- `get_pid`: `((pkt[1] & 0x1F) << 8) | pkt[2]`, computed in `int` and returned as
`uint16_t`. -/
def get_pid (pkt : Mem) : Nat :=
  ((((pkt 1).val &&& 0x1F) <<< 8) ||| (pkt 2).val) % 65536

/-- The pair `(sec, nsec)` that `timespec_diff_sec` holds just before it converts
to `double`: both are `long`, and so is every intermediate result. -/
def timespec_diff_parts (start stop : Timespec) : Int × Int :=
  let sec := long_wrap (stop.tv_sec - start.tv_sec)
  let nsec := long_wrap (stop.tv_nsec - start.tv_nsec)
  if nsec < 0 then (long_wrap (sec - 1), long_wrap (nsec + 1000000000)) else (sec, nsec)

/-- `timespec_diff_sec`: `(double)sec + (double)nsec / 1e9`, as an exact value. -/
def timespec_diff_sec (start stop : Timespec) : ℚ :=
  ((timespec_diff_parts start stop).1 : ℚ) + ((timespec_diff_parts start stop).2 : ℚ) / 1000000000

/-- The stream buffer: the array `buffer` and the count `buf_len` of bytes in use. -/
structure StreamBuffer where
  buffer : Mem
  buf_len : Nat

/-- The bytes the stream buffer holds, oldest first. -/
def StreamBuffer.content (b : StreamBuffer) : List Byte :=
  bytesOf b.buffer b.buf_len

/-- The variables of `main` that live across trials, with the flag `keep_running`. -/
structure MainState extends StreamBuffer where
  keep_running : Bool
  measurement_index : Nat

/-- The variables declared inside one trial (one pass of the outer loop). -/
structure TrialVars where
  arm_time : Timespec
  hit_time : Timespec
  hit_found : Bool
  timed_out : Bool

/-- What the program does to its environment. -/
inductive Event where
  | gpioSetMode
  | gpioWrite (level : Bool)
  | gpioTerminate
  | initFailed
  | banner
  | sleep (seconds : ℚ)
  | perrorSelect
  | perrorRead
  | eofNotice
  | reportHit (index : Nat) (arm_time hit_time : Timespec) (latency : ℚ)
  | reportTimeout (index : Nat)
deriving DecidableEq

/-- The state of the scan loop when it is left, and the cursor values at which its
body ran (in order). -/
structure ScanResult where
  i : Nat
  hit_found : Bool
  visited : List Nat
deriving DecidableEq

/-- The scan loop, lines 150-167:
`while (buf_len - i >= TS_PACKET_SIZE && !hit_found) { ... }`.
One unit of fuel is spent each time the loop condition is tested. -/
def scanLoop (buffer : Mem) (buf_len : Nat) : Nat → Nat → Bool → Option ScanResult
  | 0, _, _ => none
  | fuel + 1, i, hit_found =>
    if size_sub buf_len i ≥ TS_PACKET_SIZE ∧ hit_found = false then
      if buffer i ≠ 0x47 then
        (scanLoop buffer buf_len fuel (i + 1) hit_found).map
          fun r => { r with visited := i :: r.visited }
      else if get_pid (fun k => buffer (i + k)) = PID_TO_WATCH then
        some { i := i, hit_found := true, visited := [i] }
      else
        (scanLoop buffer buf_len fuel (i + TS_PACKET_SIZE) hit_found).map
          fun r => { r with visited := i :: r.visited }
    else
      some { i := i, hit_found := hit_found, visited := [] }

/-- Lines 127-131: when the buffer is full, drop its oldest packet-sized chunk. -/
def dropOldest (b : StreamBuffer) : StreamBuffer :=
  if b.buf_len = BUFFER_SIZE then
    { buffer := memmove b.buffer 0 TS_PACKET_SIZE (size_sub b.buf_len TS_PACKET_SIZE),
      buf_len := size_sub b.buf_len TS_PACKET_SIZE }
  else b

/-- The length passed to `read` at line 134: `sizeof(buffer) - buf_len`. -/
def readCount (b : StreamBuffer) : Nat :=
  size_sub BUFFER_SIZE b.buf_len

/-- Lines 133 and 146: the bytes `read` returned are stored at `buffer + buf_len` and
`buf_len` grows by their number. -/
def appendRead (b : StreamBuffer) (data : List Byte) : StreamBuffer :=
  { buffer := writeAt b.buffer b.buf_len data, buf_len := b.buf_len + data.length }

/-- Lines 170-177: remove the consumed bytes up to the scan cursor `i`. -/
def compact (b : StreamBuffer) (i : Nat) : StreamBuffer :=
  if i > 0 then
    if i < b.buf_len then
      { buffer := memmove b.buffer 0 i (size_sub b.buf_len i), buf_len := size_sub b.buf_len i }
    else
      { b with buf_len := 0 }
  else b

/-- The scan of the whole buffer from cursor 0, with fuel for every byte. -/
def scan (b : StreamBuffer) (hit_found : Bool) : Option ScanResult :=
  scanLoop b.buffer b.buf_len (b.buf_len + 1) 0 hit_found

/-- What the environment supplies to one pass of the wait loop. -/
structure IterInput where
  /-- SIGINT was delivered since the flag was last tested, before the test at line 94. -/
  sigint : Bool
  /-- The clock reading of line 96. -/
  now : Timespec
  /-- The result of `select` at line 114. -/
  select : SelectResult
  /-- The result of `read` at line 133. -/
  read : ReadResult
  /-- The clock reading of line 161, taken when a packet matches. -/
  hit_clock : Timespec

/-- The outcome of the body of the wait loop. -/
structure BodyResult where
  st : MainState
  tr : TrialVars
  /-- The body was left by `break`. -/
  brk : Bool
  out : List Event

/-- The handler `intHandler`, run when SIGINT is delivered. -/
def intHandler (st : MainState) : MainState :=
  { st with keep_running := false }

/-- Deliver SIGINT (or not) ahead of a test of `keep_running`. -/
def deliver (sigint : Bool) (st : MainState) : MainState :=
  if sigint then intHandler st else st

/-- The bytes the `read` of line 133 returns when `avail` are available: at most as
many as it was asked for, after the full-buffer drop of lines 127-131. -/
def readData (b : StreamBuffer) (avail : List Byte) : List Byte :=
  avail.take (readCount (dropOldest b))

/-- The stream buffer after lines 127-146, when `read` found `avail` available. -/
def afterRead (b : StreamBuffer) (avail : List Byte) : StreamBuffer :=
  appendRead (dropOldest b) (readData b avail)

/-- Lines 161-162: when the scan found a match, `hit_time` is read off the clock and
`hit_found` is set. -/
def recordHit (hit_clock : Timespec) (found : Bool) (tr : TrialVars) : TrialVars :=
  if found then { tr with hit_time := hit_clock, hit_found := true } else tr

/-- The body of the wait loop, lines 95-177. It is `none` only if the scan loop
does not finish within its fuel. -/
def waitBody (inp : IterInput) (st : MainState) (tr : TrialVars) : Option BodyResult :=
  if TIMEOUT_SEC - timespec_diff_sec tr.arm_time inp.now ≤ 0 then
    some { st := st, tr := { tr with timed_out := true }, brk := true, out := [] }
  else
    match inp.select with
    | SelectResult.error =>
      some { st := { st with keep_running := false }, tr := tr, brk := true,
             out := [Event.perrorSelect] }
    | SelectResult.timeout =>
      some { st := st, tr := { tr with timed_out := true }, brk := true, out := [] }
    | SelectResult.ready =>
      match inp.read with
      | ReadResult.error =>
        some { st := { st with toStreamBuffer := dropOldest st.toStreamBuffer,
                               keep_running := false },
               tr := tr, brk := true, out := [Event.perrorRead] }
      | ReadResult.bytes avail =>
        if (readData st.toStreamBuffer avail).length = 0 then
          some { st := { st with toStreamBuffer := dropOldest st.toStreamBuffer,
                                 keep_running := false },
                 tr := tr, brk := true, out := [Event.eofNotice] }
        else
          match scan (afterRead st.toStreamBuffer avail) tr.hit_found with
          | none => none
          | some r =>
            some { st := { st with toStreamBuffer := compact (afterRead st.toStreamBuffer avail) r.i },
                   tr := recordHit inp.hit_clock r.hit_found tr, brk := false, out := [] }

/-- The outcome of the wait loop of one trial. -/
structure LoopResult where
  st : MainState
  tr : TrialVars
  /-- The loop was left; `false` when the inputs ran out with the loop still
  running (the process is blocked in `select` or `read`). -/
  left : Bool
  out : List Event
  /-- The inputs not consumed yet. -/
  rest : List IterInput

/-- The wait loop, line 94: `while (keep_running && !hit_found && !timed_out)`.
Once `hit_found` or `timed_out` is set the test fails whatever the flag is, so no
input is consumed for it. -/
def waitLoop : List IterInput → MainState → TrialVars → Option LoopResult
  | inputs, st, tr =>
    if tr.hit_found || tr.timed_out then
      some { st := st, tr := tr, left := true, out := [], rest := inputs }
    else
      match inputs with
      | [] => some { st := st, tr := tr, left := false, out := [], rest := [] }
      | inp :: rest =>
        if (deliver inp.sigint st).keep_running then
          match waitBody inp (deliver inp.sigint st) tr with
          | none => none
          | some r =>
            if r.brk then
              some { st := r.st, tr := r.tr, left := true, out := r.out, rest := rest }
            else
              (waitLoop rest r.st r.tr).map fun l => { l with out := r.out ++ l.out }
        else
          some { st := deliver inp.sigint st, tr := tr, left := true, out := [], rest := rest }

/-- What the environment supplies to one trial, its wait loop apart. -/
structure TrialInput where
  /-- SIGINT was delivered before the test of the outer loop, line 78. -/
  sigint_head : Bool
  /-- The clock reading of line 88. -/
  arm_clock : Timespec
  /-- SIGINT was delivered before the test at line 183. -/
  sigint_end : Bool

/-- How one trial ended. -/
inductive TrialEnd where
  /-- The inputs ran out inside the wait loop. -/
  | blocked
  /-- The outer loop was left by the `break` of line 184: the trial is aborted. -/
  | stopped
  /-- The trial was reported and the outer loop goes on. -/
  | reported
deriving DecidableEq

/-- The outcome of one trial. -/
structure TrialResult where
  st : MainState
  tr : TrialVars
  ending : TrialEnd
  out : List Event
  /-- The inputs of the wait loop not consumed yet. -/
  rest : List IterInput

/-- The report of lines 190-202. -/
def report (index : Nat) (tr : TrialVars) : List Event :=
  if tr.hit_found then
    [Event.reportHit index tr.arm_time tr.hit_time (timespec_diff_sec tr.arm_time tr.hit_time)]
  else if tr.timed_out then
    [Event.reportTimeout index]
  else []

/-- The variables of a trial as lines 84-88 leave them; `hit_time` holds no
meaningful value until a hit is recorded. -/
def armVars (arm_clock : Timespec) : TrialVars :=
  { arm_time := arm_clock, hit_time := { tv_sec := 0, tv_nsec := 0 },
    hit_found := false, timed_out := false }

/-- Line 82: `measurement_index++` on an `unsigned long`. -/
def nextIndex (st : MainState) : MainState :=
  { st with measurement_index := (st.measurement_index + 1) % SIZE_MODULUS }

/-- Lines 180-206: what follows the wait loop once it is left. The pin is lowered,
`keep_running` is tested, and only then is the trial reported. -/
def resolve (sigint_end : Bool) (l : LoopResult) : TrialResult :=
  if (deliver sigint_end l.st).keep_running then
    { st := deliver sigint_end l.st, tr := l.tr, ending := TrialEnd.reported, rest := l.rest,
      out := [Event.gpioWrite true] ++ l.out ++ [Event.gpioWrite false]
               ++ report l.st.measurement_index l.tr ++ [Event.sleep 1] }
  else
    { st := deliver sigint_end l.st, tr := l.tr, ending := TrialEnd.stopped, rest := l.rest,
      out := [Event.gpioWrite true] ++ l.out ++ [Event.gpioWrite false] }

/-- One pass of the outer loop, lines 79-206, entered with `keep_running` set;
`tape` holds the inputs of the wait loop. -/
def trial (inp : TrialInput) (tape : List IterInput) (st : MainState) : Option TrialResult :=
  match waitLoop tape (nextIndex st) (armVars inp.arm_clock) with
  | none => none
  | some l =>
    if l.left then
      some (resolve inp.sigint_end l)
    else
      some { st := l.st, tr := l.tr, ending := TrialEnd.blocked, rest := l.rest,
             out := [Event.gpioWrite true] ++ l.out }

/-- The outcome of the outer loop. -/
structure RunResult where
  st : MainState
  /-- The outer loop was left; `false` when the inputs ran out first. -/
  left : Bool
  /-- The events of each trial that was armed, in order. -/
  trials : List (List Event)

/-- The outer loop, line 78: `while (keep_running)`. Each trial takes one entry of
`inputs`; the passes of the wait loops take their inputs from `tape`, in order. -/
def trialLoop : List TrialInput → List IterInput → MainState → Option RunResult
  | [], _, st => some { st := st, left := false, trials := [] }
  | inp :: more, tape, st =>
    if (deliver inp.sigint_head st).keep_running then
      match trial inp tape (deliver inp.sigint_head st) with
      | none => none
      | some t =>
        match t.ending with
        | TrialEnd.blocked => some { st := t.st, left := false, trials := [t.out] }
        | TrialEnd.stopped => some { st := t.st, left := true, trials := [t.out] }
        | TrialEnd.reported =>
          (trialLoop more t.rest t.st).map fun r => { r with trials := t.out :: r.trials }
    else
      some { st := deliver inp.sigint_head st, left := true, trials := [] }

/-- The variables of `main` when the outer loop is first reached: the buffer holds
nothing yet (the bytes of the array are whatever `buffer0` is). -/
def initialState (buffer0 : Mem) : MainState :=
  { buffer := buffer0, buf_len := 0, keep_running := true, measurement_index := 0 }

/-- Lines 60-76: what `main` does before the outer loop once the GPIO library is up. -/
def startupEvents : List Event :=
  [Event.gpioSetMode, Event.gpioWrite false, Event.banner, Event.sleep 10]

/-- The function `main`: the events it produces and its exit status (no status
while it is still running when the inputs run out). -/
def main (init_ok : Bool) (buffer0 : Mem) (inputs : List TrialInput) (tape : List IterInput) :
    Option (List Event × Option Nat) :=
  if init_ok then
    match trialLoop inputs tape (initialState buffer0) with
    | none => none
    | some r =>
      if r.left then
        some (startupEvents ++ r.trials.flatten
                ++ [Event.gpioWrite false, Event.gpioTerminate], some 0)
      else
        some (startupEvents ++ r.trials.flatten, none)
  else
    some ([Event.initFailed], some 1)

/-- An event is the report of a hit. -/
def Event.isHit : Event → Bool
  | Event.reportHit _ _ _ _ => true
  | _ => false

/-- An event is the report of a timeout. -/
def Event.isTimeout : Event → Bool
  | Event.reportTimeout _ => true
  | _ => false

/-- The number of trials, each given by its events, that reported a hit. -/
def hitCount (trials : List (List Event)) : Nat :=
  (trials.filter fun evs => evs.any Event.isHit).length

/-- The levels of the GPIO writes among some events, in order. -/
def gpioLevels (evs : List Event) : List Bool :=
  evs.filterMap fun e =>
    match e with
    | Event.gpioWrite level => some level
    | _ => none

/-- A complete, correctly synced packet: 188 bytes of which the first is 0x47. -/
def IsPacket (p : List Byte) : Prop :=
  p.length = TS_PACKET_SIZE ∧ p.getD 0 0 = 0x47

instance (p : List Byte) : Decidable (IsPacket p) := by
  unfold IsPacket
  infer_instance

/-- The identifier `get_pid` extracts from a packet given by its bytes. -/
def pidOf (p : List Byte) : Nat :=
  get_pid fun k => p.getD k 0

/-- The pass of the wait loop in which `read` returns `data` at clock reading `now`. -/
def readInput (now : Timespec) (data : List Byte) : IterInput :=
  { sigint := false, now := now, select := SelectResult.ready,
    read := ReadResult.bytes data, hit_clock := now }

/-- The pass of the wait loop in which `select` returns 0 at clock reading `now`. -/
def selectTimeoutInput (now : Timespec) : IterInput :=
  { sigint := false, now := now, select := SelectResult.timeout,
    read := ReadResult.bytes [], hit_clock := now }

/-- A trial armed at `arm_clock`, with SIGINT delivered before the test of line 183
when `sigint_end` is set and at no other point. -/
def trialAt (arm_clock : Timespec) (sigint_end : Bool) : TrialInput :=
  { sigint_head := false, arm_clock := arm_clock, sigint_end := sigint_end }

/-- Bytes in which a complete synced packet with the identifier 0x0404 starts at
offset 3, inside what the scan frames as a packet with the identifier 0x0001. -/
def misframedBytes : List Byte :=
  [0x47, 0, 1] ++ samplePacket 4 4

/-- The stream of scenario A: 50 packets with the identifier 0x0001, one with 0x0404,
and 10 more with 0x0001, all correctly synced. -/
def scenarioA : List (List Byte) :=
  List.replicate 50 (samplePacket 0 1) ++ [samplePacket 4 4]
    ++ List.replicate 10 (samplePacket 0 1)

/-- The passes of the wait loop when scenario A is delivered one packet per `read`,
one second after each arm, and the stream then ends. -/
def scenarioATape : List IterInput :=
  scenarioA.map (readInput ⟨1, 0⟩) ++ [readInput ⟨1, 0⟩ []]

/-- A stream buffer holding two bytes that are not the sync byte and then one packet
with the identifier 0x0404. -/
def resyncSample : StreamBuffer :=
  { buffer := fun k => ([0, 1] ++ samplePacket 4 4).getD k 0, buf_len := 190 }

end Pid404Rx

/-! ## The Concurrent Engine: `pid404_arm_rx.c` -/

namespace Pid404ArmRx

/-- `#define TS_PACKET_SIZE 188`. -/
def TS_PACKET_SIZE : Nat := 188

/-- `#define PID_TO_WATCH 0x0404`. -/
def PID_TO_WATCH : Nat := 0x0404

/-- `get_pid`: `((pkt[1] & 0x1F) << 8) | pkt[2]`, computed in `int` and returned as
`uint16_t`. -/
def get_pid (pkt : Mem) : Nat :=
  ((((pkt 1).val &&& 0x1F) <<< 8) ||| (pkt 2).val) % 65536

/-- The pair `(sec, nsec)` that `timespec_diff_sec` holds just before it converts
to `double`: both are `long`, and so is every intermediate result. -/
def timespec_diff_parts (start stop : Timespec) : Int × Int :=
  let sec := long_wrap (stop.tv_sec - start.tv_sec)
  let nsec := long_wrap (stop.tv_nsec - start.tv_nsec)
  if nsec < 0 then (long_wrap (sec - 1), long_wrap (nsec + 1000000000)) else (sec, nsec)

/-- `timespec_diff_sec`: `(double)sec + (double)nsec / 1e9`, as an exact value. -/
def timespec_diff_sec (start stop : Timespec) : ℚ :=
  ((timespec_diff_parts start stop).1 : ℚ) + ((timespec_diff_parts start stop).2 : ℚ) / 1000000000

/-- The file-scope variables shared by the two threads: the flag `keep_running` and
the record guarded by `lock`. -/
structure Shared where
  keep_running : Bool
  measurement_active : Bool
  hit_ready : Bool
  measurement_index : Nat
  arm_time : Timespec
  hit_time : Timespec
deriving DecidableEq

/-- The record `{measurement_active, hit_ready, arm_time, hit_time}` of a state. -/
def Shared.record (s : Shared) : Bool × Bool × Timespec × Timespec :=
  (s.measurement_active, s.hit_ready, s.arm_time, s.hit_time)

/-- The shared variables as their initialisers leave them. -/
def initialShared : Shared :=
  { keep_running := true, measurement_active := false, hit_ready := false,
    measurement_index := 0, arm_time := { tv_sec := 0, tv_nsec := 0 },
    hit_time := { tv_sec := 0, tv_nsec := 0 } }

/-- The handler `intHandler`, run when SIGINT is delivered. -/
def intHandler (s : Shared) : Shared :=
  { s with keep_running := false }

/-- Deliver SIGINT (or not) ahead of a test of `keep_running`. -/
def deliver (sigint : Bool) (s : Shared) : Shared :=
  if sigint then intHandler s else s

/-- The test of lines 85-88:
`keep_running && measurement_active && !hit_ready && pid == PID_TO_WATCH`. -/
def hitGuard (pid : Nat) (s : Shared) : Bool :=
  s.keep_running && s.measurement_active && !s.hit_ready && pid == PID_TO_WATCH

/-- The block the reader runs under the lock, lines 84-96, for a packet whose
identifier is `pid`; `clock` is the reading `clock_gettime` would give. -/
def reader_locked_step (pid : Nat) (clock : Timespec) (s : Shared) : Shared :=
  if hitGuard pid s then
    { s with hit_time := clock, hit_ready := true, measurement_active := false }
  else s

/-- The arm step of the controller, lines 133-141; `clock` is the reading of
line 139. -/
def arm (clock : Timespec) (s : Shared) : Shared :=
  { s with hit_ready := false, measurement_active := true,
           measurement_index := (s.measurement_index + 1) % SIZE_MODULUS,
           arm_time := clock }

/-- What the environment supplies to one pass of the reader loop. -/
structure ReaderInput where
  /-- SIGINT was delivered before the test of the reader loop, line 61. -/
  sigint_head : Bool
  /-- The result of `read` at line 62. -/
  read : ReadResult
  /-- SIGINT was delivered after that test and before the test under the lock. -/
  sigint_lock : Bool
  /-- The clock reading of line 91, taken when the hit is recorded. -/
  clock : Timespec

/-- What the reader thread does to its environment. -/
inductive ReaderEvent where
  | perrorRead
  | eofNotice
  | condSignal
  | condBroadcast
deriving DecidableEq

/-- The outcome of the reader thread. -/
structure ReaderResult where
  s : Shared
  buf : Mem
  /-- The thread returned; `false` when the inputs ran out with the thread blocked
  in `read`. -/
  returned : Bool
  out : List ReaderEvent

/-- Lines 99-103: on leaving the loop the reader clears `keep_running` and wakes
the controller. -/
def readerExit (s : Shared) (buf : Mem) (out : List ReaderEvent) : ReaderResult :=
  { s := { s with keep_running := false }, buf := buf, returned := true,
    out := out ++ [ReaderEvent.condBroadcast] }

/-- The signal of line 94, sent in the pass that records a hit: `r` is the outcome
of the passes that follow it. -/
def lockedPass (inp : ReaderInput) (buf : Mem) (s : Shared) (r : ReaderResult) : ReaderResult :=
  if hitGuard (get_pid buf) (deliver inp.sigint_lock s) then
    { r with out := ReaderEvent.condSignal :: r.out }
  else r

/-- The reader loop of `reader_thread_func`, lines 61-97, followed by its exit
block. -/
def readerLoop : List ReaderInput → Mem → Shared → ReaderResult
  | [], buf, s => { s := s, buf := buf, returned := false, out := [] }
  | inp :: rest, buf, s =>
    if (deliver inp.sigint_head s).keep_running then
      match inp.read with
      | ReadResult.error => readerExit (deliver inp.sigint_head s) buf [ReaderEvent.perrorRead]
      | ReadResult.bytes avail =>
        if (avail.take TS_PACKET_SIZE).length = 0 then
          readerExit (deliver inp.sigint_head s) buf [ReaderEvent.eofNotice]
        else if (avail.take TS_PACKET_SIZE).length ≠ TS_PACKET_SIZE then
          readerLoop rest (writeAt buf 0 (avail.take TS_PACKET_SIZE)) (deliver inp.sigint_head s)
        else if writeAt buf 0 (avail.take TS_PACKET_SIZE) 0 ≠ 0x47 then
          readerLoop rest (writeAt buf 0 (avail.take TS_PACKET_SIZE)) (deliver inp.sigint_head s)
        else
          lockedPass inp (writeAt buf 0 (avail.take TS_PACKET_SIZE)) (deliver inp.sigint_head s)
            (readerLoop rest (writeAt buf 0 (avail.take TS_PACKET_SIZE))
              (reader_locked_step (get_pid (writeAt buf 0 (avail.take TS_PACKET_SIZE))) inp.clock
                (deliver inp.sigint_lock (deliver inp.sigint_head s))))
    else
      readerExit (deliver inp.sigint_head s) buf []

/-- The function `reader_thread_func`, started with an arbitrary local array. -/
def reader_thread_func (inputs : List ReaderInput) (buf0 : Mem) (s : Shared) : ReaderResult :=
  readerLoop inputs buf0 s

/-- A `read` that returns a complete packet: 188 bytes of which the first is 0x47. -/
def isPacketRead (inp : ReaderInput) : Bool :=
  match inp.read with
  | ReadResult.error => false
  | ReadResult.bytes avail =>
    (avail.take TS_PACKET_SIZE).length = TS_PACKET_SIZE ∧ (avail.take TS_PACKET_SIZE).getD 0 0 = 0x47

/-- The identifier of the packet a `read` returns. -/
def readPid (inp : ReaderInput) : Nat :=
  match inp.read with
  | ReadResult.error => 0
  | ReadResult.bytes avail => get_pid fun k => (avail.take TS_PACKET_SIZE).getD k 0

/-- A `read` that returns a complete synced packet with the watched identifier. -/
def isTargetRead (inp : ReaderInput) : Bool :=
  isPacketRead inp && readPid inp == PID_TO_WATCH

/-- The reads that consume a byte stream 188 bytes at a time, ending with the end of
the stream: at most `n` data reads, each of the next (up to) 188 bytes. -/
def readsOf : Nat → List Byte → List ReadResult
  | 0, _ => [ReadResult.bytes []]
  | n + 1, stream =>
    if stream = [] then [ReadResult.bytes []]
    else ReadResult.bytes (stream.take 188) :: readsOf n (stream.drop 188)

/-- A pass of the reader loop with no SIGINT, in which `read` gives `r` and the clock
reads `clock`. -/
def quietPass (clock : Timespec) (r : ReadResult) : ReaderInput :=
  { sigint_head := false, read := r, sigint_lock := false, clock := clock }

/-- The inputs of a reader that consumes `stream` 188 bytes at a time with no SIGINT;
every clock reading is `clock`. -/
def quietInputs (clock : Timespec) (stream : List Byte) : List ReaderInput :=
  (readsOf stream.length stream).map (quietPass clock)

end Pid404ArmRx

/-! ## Properties -/

set_option maxRecDepth 8000

theorem size_sub_of_le {a b : Nat} (hb : b ≤ a) (ha : a < SIZE_MODULUS) : size_sub a b = a - b := by
  unfold size_sub SIZE_MODULUS at *
  omega

theorem pid_bits (b1 b2 : Byte) :
    (((b1.val &&& 0x1F) <<< 8) ||| b2.val) % 65536 = (b1.val % 32) * 256 + b2.val := by
  have h1 : b1.val &&& 0x1F = b1.val % 32 := Nat.and_pow_two_sub_one_eq_mod b1.val 5
  have h2 : b2.val < 2 ^ 8 := b2.isLt
  have h3 : 2 ^ 8 * (b1.val % 32) + b2.val = 2 ^ 8 * (b1.val % 32) ||| b2.val :=
    Nat.mul_add_lt_is_or h2 _
  rw [h1, Nat.shiftLeft_eq, Nat.mul_comm, ← h3]
  have : b2.val < 256 := b2.isLt
  omega

namespace Pid404Rx

theorem get_pid_eq (pkt : Mem) : get_pid pkt = ((pkt 1).val % 32) * 256 + (pkt 2).val :=
  pid_bits (pkt 1) (pkt 2)

end Pid404Rx

namespace Pid404ArmRx
theorem get_pid_eq_arm (pkt : Mem) : get_pid pkt = ((pkt 1).val % 32) * 256 + (pkt 2).val :=
  pid_bits (pkt 1) (pkt 2)
end Pid404ArmRx

/-- Claim C5 (identifier extraction). For every packet, `get_pid` returns
`(byte1 mod 32) * 256 + byte2`, the low 5 bits of byte 1 followed by the 8 bits of
byte 2; the result is below 8192 (13 bits); it depends on no byte other than bytes 1
and 2; and the `get_pid` of `pid404_arm_rx.c` returns the same value as the `get_pid`
of `pid404_rx.c` on every packet. -/
theorem get_pid_spec (pkt : Mem) :
    Pid404Rx.get_pid pkt = ((pkt 1).val % 32) * 256 + (pkt 2).val
    ∧ Pid404Rx.get_pid pkt < 8192
    ∧ (∀ other : Mem, other 1 = pkt 1 → other 2 = pkt 2 →
        Pid404Rx.get_pid other = Pid404Rx.get_pid pkt)
    ∧ Pid404ArmRx.get_pid pkt = Pid404Rx.get_pid pkt := by
  refine ⟨Pid404Rx.get_pid_eq pkt, ?_, ?_, ?_⟩
  · rw [Pid404Rx.get_pid_eq]
    have : (pkt 2).val < 256 := (pkt 2).isLt
    omega
  · intro other h1 h2
    rw [Pid404Rx.get_pid_eq, Pid404Rx.get_pid_eq, h1, h2]
  · rw [Pid404Rx.get_pid_eq, Pid404ArmRx.get_pid_eq_arm]

/-- A result within the range of `long` is held as it is. -/
theorem long_wrap_of_fits (x : Int) (hlo : LONG_MIN ≤ x) (hhi : x ≤ LONG_MAX) :
    long_wrap x = x := by
  unfold LONG_MIN at hlo
  unfold LONG_MAX at hhi
  unfold long_wrap
  omega

/-- What a `long` holds is within the range of `long`. -/
theorem long_wrap_range (x : Int) : LONG_MIN ≤ long_wrap x ∧ long_wrap x ≤ LONG_MAX := by
  unfold LONG_MIN LONG_MAX long_wrap
  omega

/-- The pair `(sec, nsec)` when no step of the `long` arithmetic leaves the range:
the exact difference of the second fields, less one on a borrow, and the exact
difference of the nanosecond fields, plus `10^9` on a borrow. -/
theorem diff_parts_exact (start stop : Timespec)
    (hs : start.normalised) (he : stop.normalised)
    (hlo : LONG_MIN < stop.tv_sec - start.tv_sec)
    (hhi : stop.tv_sec - start.tv_sec ≤ LONG_MAX) :
    Pid404Rx.timespec_diff_parts start stop
      = if stop.tv_nsec - start.tv_nsec < 0
        then (stop.tv_sec - start.tv_sec - 1, stop.tv_nsec - start.tv_nsec + 1000000000)
        else (stop.tv_sec - start.tv_sec, stop.tv_nsec - start.tv_nsec) := by
  unfold Timespec.normalised at hs he
  have hlo2 : (-9223372036854775808 : Int) < stop.tv_sec - start.tv_sec := hlo
  have hhi2 : stop.tv_sec - start.tv_sec ≤ (9223372036854775807 : Int) := hhi
  have w1 : long_wrap (stop.tv_sec - start.tv_sec) = stop.tv_sec - start.tv_sec :=
    long_wrap_of_fits _ (le_of_lt hlo) hhi
  have w2 : long_wrap (stop.tv_nsec - start.tv_nsec) = stop.tv_nsec - start.tv_nsec :=
    long_wrap_of_fits _ (by unfold LONG_MIN; omega) (by unfold LONG_MAX; omega)
  have w3 : long_wrap (stop.tv_sec - start.tv_sec - 1) = stop.tv_sec - start.tv_sec - 1 :=
    long_wrap_of_fits _ (by unfold LONG_MIN; omega) (by unfold LONG_MAX; omega)
  have w4 : long_wrap (stop.tv_nsec - start.tv_nsec + 1000000000)
      = stop.tv_nsec - start.tv_nsec + 1000000000 :=
    long_wrap_of_fits _ (by unfold LONG_MIN; omega) (by unfold LONG_MAX; omega)
  unfold Pid404Rx.timespec_diff_parts
  simp only [w1, w2, w3, w4]

theorem diff_parts_facts (start stop : Timespec)
    (hs : start.normalised) (he : stop.normalised) (hle : start.toNanos ≤ stop.toNanos)
    (hfit : stop.tv_sec - start.tv_sec ≤ LONG_MAX) :
    0 ≤ (Pid404Rx.timespec_diff_parts start stop).1
    ∧ 0 ≤ (Pid404Rx.timespec_diff_parts start stop).2
    ∧ (Pid404Rx.timespec_diff_parts start stop).2 < 1000000000
    ∧ (Pid404Rx.timespec_diff_parts start stop).1 * 1000000000
        + (Pid404Rx.timespec_diff_parts start stop).2 = stop.toNanos - start.toNanos := by
  have hlo : LONG_MIN < stop.tv_sec - start.tv_sec := by
    unfold Timespec.normalised at hs he
    unfold Timespec.toNanos at hle
    unfold LONG_MIN
    omega
  rw [diff_parts_exact start stop hs he hlo hfit]
  unfold Timespec.normalised at hs he
  unfold Timespec.toNanos at *
  split
  · refine ⟨by omega, by omega, by omega, by ring⟩
  · refine ⟨by omega, by omega, by omega, by ring⟩

/-- Claim C6 as amended (elapsed time with sub-second borrow). For normalised
timestamps `start` and `stop` (`0 <= tv_nsec < 10^9` in both) with `stop` not earlier
than `start` and with `stop.tv_sec - start.tv_sec` within the range of `long` (at most
`LONG_MAX = 2^63 - 1`, so that no step of the `long` arithmetic overflows), the pair
`(sec, nsec)` that `timespec_diff_sec` holds before it converts to `double` satisfies
`sec >= 0`, `0 <= nsec < 10^9` and
`sec * 10^9 + nsec = (stop.tv_sec * 10^9 + stop.tv_nsec) - (start.tv_sec * 10^9 + start.tv_nsec)`,
also when `stop.tv_nsec < start.tv_nsec`; the two source files compute the same pair
and the same duration, and the duration is not negative. -/
theorem timespec_diff_borrow (start stop : Timespec)
    (hs : start.normalised) (he : stop.normalised) (hle : start.toNanos ≤ stop.toNanos)
    (hfit : stop.tv_sec - start.tv_sec ≤ LONG_MAX) :
    0 ≤ (Pid404Rx.timespec_diff_parts start stop).1
    ∧ 0 ≤ (Pid404Rx.timespec_diff_parts start stop).2
    ∧ (Pid404Rx.timespec_diff_parts start stop).2 < 1000000000
    ∧ (Pid404Rx.timespec_diff_parts start stop).1 * 1000000000
        + (Pid404Rx.timespec_diff_parts start stop).2
        = (stop.tv_sec * 1000000000 + stop.tv_nsec) - (start.tv_sec * 1000000000 + start.tv_nsec)
    ∧ Pid404ArmRx.timespec_diff_parts start stop = Pid404Rx.timespec_diff_parts start stop
    ∧ Pid404ArmRx.timespec_diff_sec start stop = Pid404Rx.timespec_diff_sec start stop
    ∧ 0 ≤ Pid404Rx.timespec_diff_sec start stop := by
  obtain ⟨h1, h2, h3, h4⟩ := diff_parts_facts start stop hs he hle hfit
  refine ⟨h1, h2, h3, h4, rfl, rfl, ?_⟩
  unfold Pid404Rx.timespec_diff_sec
  have a1 : (0 : ℚ) ≤ ((Pid404Rx.timespec_diff_parts start stop).1 : ℚ) := by exact_mod_cast h1
  have a2 : (0 : ℚ) ≤ ((Pid404Rx.timespec_diff_parts start stop).2 : ℚ) := by exact_mod_cast h2
  positivity

/-- The borrow at work: from 5.9 s to 7.1 s the pair is `(1, 200000000)`. -/
theorem timespec_diff_borrow_witness :
    (0 : Int) ≤ (Pid404Rx.timespec_diff_parts ⟨5, 900000000⟩ ⟨7, 100000000⟩).1
    ∧ Pid404Rx.timespec_diff_parts ⟨5, 900000000⟩ ⟨7, 100000000⟩ = (1, 200000000) :=
  ⟨(timespec_diff_borrow ⟨5, 900000000⟩ ⟨7, 100000000⟩ (by decide) (by decide) (by decide)
      (by decide)).1,
   by decide⟩

/-- Claim C6 as worded fails when the difference of the second fields does not fit a
`long`: `start = (LONG_MIN, 0)` and `stop = (1, 0)` are normalised, `stop` is later
than `start`, and both files hold `sec = -9223372036854775807`, which is negative and
is not the elapsed time; the duration returned is negative. -/
theorem timespec_diff_overflow_counterexample :
    (⟨LONG_MIN, 0⟩ : Timespec).normalised
    ∧ (⟨1, 0⟩ : Timespec).normalised
    ∧ (⟨LONG_MIN, 0⟩ : Timespec).toNanos ≤ (⟨1, 0⟩ : Timespec).toNanos
    ∧ Pid404Rx.timespec_diff_parts ⟨LONG_MIN, 0⟩ ⟨1, 0⟩ = (-9223372036854775807, 0)
    ∧ Pid404ArmRx.timespec_diff_parts ⟨LONG_MIN, 0⟩ ⟨1, 0⟩ = (-9223372036854775807, 0)
    ∧ ¬ (0 ≤ (Pid404Rx.timespec_diff_parts ⟨LONG_MIN, 0⟩ ⟨1, 0⟩).1)
    ∧ (Pid404Rx.timespec_diff_parts ⟨LONG_MIN, 0⟩ ⟨1, 0⟩).1 * 1000000000
        + (Pid404Rx.timespec_diff_parts ⟨LONG_MIN, 0⟩ ⟨1, 0⟩).2
        ≠ (⟨1, 0⟩ : Timespec).toNanos - (⟨LONG_MIN, 0⟩ : Timespec).toNanos
    ∧ Pid404Rx.timespec_diff_sec ⟨LONG_MIN, 0⟩ ⟨1, 0⟩ < 0
    ∧ Pid404ArmRx.timespec_diff_sec ⟨LONG_MIN, 0⟩ ⟨1, 0⟩ < 0 := by
  decide!

theorem bytesOf_length (mem : Mem) (n : Nat) : (bytesOf mem n).length = n := by
  simp [bytesOf]

theorem bytesOf_getD (mem : Mem) (n k : Nat) (d : Byte) (hk : k < n) :
    (bytesOf mem n).getD k d = mem k := by
  simp [bytesOf, List.getD_eq_getElem?_getD, hk]

theorem bytesOf_ext (m1 m2 : Mem) (n : Nat) (h : ∀ k < n, m1 k = m2 k) :
    bytesOf m1 n = bytesOf m2 n := by
  unfold bytesOf
  apply List.map_congr_left
  intro k hk
  exact h k (List.mem_range.mp hk)

namespace Pid404Rx

theorem buffer_size_lt : BUFFER_SIZE < SIZE_MODULUS := by decide

theorem scan_cond_iff {buf_len i : Nat} (hi : i ≤ buf_len) (hb : buf_len < SIZE_MODULUS) :
    size_sub buf_len i ≥ TS_PACKET_SIZE ↔ i + 188 ≤ buf_len := by
  rw [size_sub_of_le hi hb]
  unfold TS_PACKET_SIZE
  omega

theorem scanLoop_hit_set (buffer : Mem) (buf_len fuel i : Nat) :
    scanLoop buffer buf_len (fuel + 1) i true = some { i := i, hit_found := true, visited := [] } := by
  simp [scanLoop]

theorem scanLoop_stop (buffer : Mem) (buf_len fuel i : Nat) (hi : i ≤ buf_len)
    (hb : buf_len < SIZE_MODULUS) (h : buf_len < i + 188) :
    scanLoop buffer buf_len (fuel + 1) i false
      = some { i := i, hit_found := false, visited := [] } := by
  have : ¬ (size_sub buf_len i ≥ TS_PACKET_SIZE) := by
    rw [scan_cond_iff hi hb]; omega
  simp [scanLoop, this]

theorem scanLoop_garbage (buffer : Mem) (buf_len fuel i : Nat) (hb : buf_len < SIZE_MODULUS)
    (h : i + 188 ≤ buf_len) (hg : buffer i ≠ 0x47) :
    scanLoop buffer buf_len (fuel + 1) i false
      = (scanLoop buffer buf_len fuel (i + 1) false).map
          fun r => { r with visited := i :: r.visited } := by
  have : size_sub buf_len i ≥ TS_PACKET_SIZE := (scan_cond_iff (by omega) hb).mpr h
  simp [scanLoop, this, hg]

theorem scanLoop_hit (buffer : Mem) (buf_len fuel i : Nat) (hb : buf_len < SIZE_MODULUS)
    (h : i + 188 ≤ buf_len) (hs : buffer i = 0x47)
    (hp : get_pid (fun k => buffer (i + k)) = PID_TO_WATCH) :
    scanLoop buffer buf_len (fuel + 1) i false
      = some { i := i, hit_found := true, visited := [i] } := by
  have : size_sub buf_len i ≥ TS_PACKET_SIZE := (scan_cond_iff (by omega) hb).mpr h
  simp [scanLoop, this, hs, hp]

theorem scanLoop_packet (buffer : Mem) (buf_len fuel i : Nat) (hb : buf_len < SIZE_MODULUS)
    (h : i + 188 ≤ buf_len) (hs : buffer i = 0x47)
    (hp : get_pid (fun k => buffer (i + k)) ≠ PID_TO_WATCH) :
    scanLoop buffer buf_len (fuel + 1) i false
      = (scanLoop buffer buf_len fuel (i + TS_PACKET_SIZE) false).map
          fun r => { r with visited := i :: r.visited } := by
  have : size_sub buf_len i ≥ TS_PACKET_SIZE := (scan_cond_iff (by omega) hb).mpr h
  simp [scanLoop, this, hs, hp]

/-- What the scan loop guarantees when started inside the buffer with enough fuel. -/
theorem scanLoop_spec (buffer : Mem) (buf_len : Nat) (hb : buf_len < SIZE_MODULUS) :
    ∀ fuel i, i ≤ buf_len → buf_len - i < fuel →
      ∃ r, scanLoop buffer buf_len fuel i false = some r
        ∧ i ≤ r.i ∧ r.i ≤ buf_len
        ∧ (∀ c ∈ r.visited, i ≤ c ∧ c + TS_PACKET_SIZE ≤ buf_len)
        ∧ (r.hit_found = false → buf_len - r.i < TS_PACKET_SIZE)
        ∧ (r.hit_found = true → r.i + TS_PACKET_SIZE ≤ buf_len ∧ buffer r.i = 0x47
            ∧ get_pid (fun k => buffer (r.i + k)) = PID_TO_WATCH) := by
  intro fuel
  induction fuel with
  | zero => intro i _ h; omega
  | succ fuel ih =>
    intro i hi hfuel
    by_cases hc : i + 188 ≤ buf_len
    · by_cases hs : buffer i = 0x47
      · by_cases hp : get_pid (fun k => buffer (i + k)) = PID_TO_WATCH
        · refine ⟨_, scanLoop_hit buffer buf_len fuel i hb hc hs hp, ?_⟩
          simp [TS_PACKET_SIZE, hs, hp]
          omega
        · obtain ⟨r, hr, h1, h2, h3, h4, h5⟩ := ih (i + TS_PACKET_SIZE)
            (by unfold TS_PACKET_SIZE; omega) (by unfold TS_PACKET_SIZE; omega)
          refine ⟨_, by rw [scanLoop_packet buffer buf_len fuel i hb hc hs hp, hr]; rfl, ?_⟩
          unfold TS_PACKET_SIZE at *
          refine ⟨by simp; omega, h2, ?_, h4, h5⟩
          intro c hcm
          simp at hcm
          rcases hcm with rfl | hcm
          · omega
          · have := h3 c hcm; omega
      · obtain ⟨r, hr, h1, h2, h3, h4, h5⟩ := ih (i + 1) (by omega) (by omega)
        refine ⟨_, by rw [scanLoop_garbage buffer buf_len fuel i hb hc hs, hr]; rfl, ?_⟩
        unfold TS_PACKET_SIZE at *
        refine ⟨by simp; omega, h2, ?_, h4, h5⟩
        intro c hcm
        simp at hcm
        rcases hcm with rfl | hcm
        · omega
        · have := h3 c hcm; omega
    · refine ⟨_, scanLoop_stop buffer buf_len fuel i hi hb (by omega), ?_⟩
      simp [TS_PACKET_SIZE]
      omega

/-- The scan loop steps one byte at a time over bytes that are not the sync byte. -/
theorem scanLoop_garbage_run (buffer : Mem) (buf_len : Nat) (hb : buf_len < SIZE_MODULUS) :
    ∀ n i fuel, (∀ k, i ≤ k → k < i + n → buffer k ≠ 0x47) → i + n + 188 ≤ buf_len →
      scanLoop buffer buf_len (n + fuel) i false
        = (scanLoop buffer buf_len fuel (i + n) false).map
            fun r => { r with visited := List.range' i n ++ r.visited } := by
  intro n
  induction n with
  | zero =>
    intro i fuel _ _
    simp
  | succ n ih =>
    intro i fuel hg hlen
    have e : n + 1 + fuel = (n + fuel) + 1 := by omega
    rw [e, scanLoop_garbage buffer buf_len (n + fuel) i hb (by omega) (hg i (by omega) (by omega)),
      ih (i + 1) fuel (fun k h1 h2 => hg k (by omega) (by omega)) (by omega)]
    have e2 : i + 1 + n = i + (n + 1) := by omega
    rw [e2]
    simp [List.range'_succ, Function.comp_def]

theorem content_getD (b : StreamBuffer) (l : List Byte) (h : b.content = l) (k : Nat)
    (hk : k < l.length) (d : Byte) : b.buffer k = l.getD k d := by
  have hl : l.length = b.buf_len := by rw [← h]; exact bytesOf_length _ _
  rw [← h]
  unfold StreamBuffer.content
  rw [bytesOf_getD _ _ _ _ (by omega)]

theorem content_length (b : StreamBuffer) : b.content.length = b.buf_len :=
  bytesOf_length _ _

theorem get_pid_congr (m1 m2 : Mem) (h1 : m1 1 = m2 1) (h2 : m1 2 = m2 2) :
    get_pid m1 = get_pid m2 := by
  rw [get_pid_eq, get_pid_eq, h1, h2]

/-- Claim C2 (buffer resync in the scan loop). When the stream buffer holds `N` bytes
none of which is 0x47, followed by one complete 188-byte packet whose first byte is
0x47 and whose identifier is 0x0404 (at most the capacity `64 * 188` in all), the
scan loop started at cursor 0 finishes with a hit and with the cursor at offset
exactly `N`; its body ran at the cursors `0, 1, ..., N` and at no other, one byte at a
time over the garbage. -/
theorem scan_resync (garbage pkt : List Byte) (b : StreamBuffer)
    (hg : ∀ x ∈ garbage, x ≠ 0x47) (hp : IsPacket pkt) (hpid : pidOf pkt = PID_TO_WATCH)
    (hcontent : b.content = garbage ++ pkt) (hcap : b.buf_len ≤ BUFFER_SIZE) :
    scan b false
      = some { i := garbage.length, hit_found := true,
               visited := List.range (garbage.length + 1) } := by
  obtain ⟨hplen, hsync⟩ := hp
  unfold TS_PACKET_SIZE at hplen
  have hlen : b.buf_len = garbage.length + 188 := by
    rw [← content_length, hcontent, List.length_append, hplen]
  have hb : b.buf_len < SIZE_MODULUS := lt_of_le_of_lt hcap buffer_size_lt
  have hgar : ∀ k, 0 ≤ k → k < 0 + garbage.length → b.buffer k ≠ 0x47 := by
    intro k _ hk
    rw [content_getD b _ hcontent k (by simp; omega) 0]
    have hk2 : k < garbage.length := by omega
    rw [List.getD_eq_getElem?_getD, List.getElem?_append_left hk2, List.getElem?_eq_getElem hk2]
    exact hg _ (List.getElem_mem hk2)
  have hpk : ∀ j, j < 188 → b.buffer (garbage.length + j) = pkt.getD j 0 := by
    intro j hj
    rw [content_getD b _ hcontent _ (by simp; omega) 0]
    rw [List.getD_eq_getElem?_getD, List.getD_eq_getElem?_getD,
      List.getElem?_append_right (by omega)]
    simp
  unfold scan
  have e : b.buf_len + 1 = garbage.length + 189 := by omega
  rw [e, scanLoop_garbage_run b.buffer b.buf_len hb garbage.length 0 189 hgar (by omega)]
  rw [Nat.zero_add, scanLoop_hit b.buffer b.buf_len 188 garbage.length hb (by omega)
    (by rw [← hsync]; exact hpk 0 (by omega))
    (by rw [← hpid]; exact get_pid_congr _ _ (hpk 1 (by omega)) (hpk 2 (by omega)))]
  simp [List.range_eq_range', List.range'_concat]

end Pid404Rx

theorem bytesOf_drop (mem : Mem) (n i : Nat) :
    (bytesOf mem n).drop i = bytesOf (fun k => mem (i + k)) (n - i) := by
  apply List.ext_getElem
  · simp [bytesOf]
  · intro k h1 h2
    simp [bytesOf]

theorem bytesOf_getElem? (mem : Mem) (n k : Nat) (hk : k < n) :
    (bytesOf mem n)[k]? = some (mem k) := by
  simp [bytesOf, hk]

theorem bytesOf_memmove_front (mem : Mem) (i n : Nat) :
    bytesOf (memmove mem 0 i n) n = bytesOf (fun k => mem (i + k)) n := by
  apply bytesOf_ext
  intro k hk
  simp [memmove, hk]

theorem bytesOf_writeAt (mem : Mem) (n : Nat) (data : List Byte) :
    bytesOf (writeAt mem n data) (n + data.length) = bytesOf mem n ++ data := by
  apply List.ext_getElem
  · simp [bytesOf]
  · intro k h1 h2
    simp only [bytesOf, List.getElem_map, List.getElem_range]
    by_cases hk : k < n
    · rw [List.getElem_append_left (by simpa using hk)]
      simp [writeAt, hk]
    · rw [List.getElem_append_right (by simpa using hk)]
      simp only [bytesOf_length, bytesOf, List.length_map, List.length_range] at h1 ⊢
      have h3 : k - n < data.length := by omega
      have h4 : n ≤ k ∧ k < n + data.length := by omega
      simp [writeAt, List.getD_eq_getElem?_getD, List.getElem?_eq_getElem h3, h4]

namespace Pid404Rx

theorem compact_spec (b : StreamBuffer) (i : Nat) (hi : i ≤ b.buf_len)
    (hb : b.buf_len < SIZE_MODULUS) :
    (compact b i).buf_len = b.buf_len - i ∧ (compact b i).content = b.content.drop i := by
  unfold compact
  by_cases h0 : i > 0
  · by_cases h1 : i < b.buf_len
    · simp only [h0, h1, if_true, StreamBuffer.content, size_sub_of_le hi hb]
      exact ⟨trivial, by rw [bytesOf_memmove_front, bytesOf_drop]⟩
    · have e : i = b.buf_len := by omega
      simp only [h0, h1, if_true, if_false, StreamBuffer.content]
      subst e
      simp [bytesOf]
  · have e : i = 0 := by omega
    subst e
    simp

theorem dropOldest_spec (b : StreamBuffer) (hcap : b.buf_len ≤ BUFFER_SIZE) :
    (dropOldest b).buf_len < BUFFER_SIZE
    ∧ (b.buf_len < BUFFER_SIZE → dropOldest b = b)
    ∧ (b.buf_len = BUFFER_SIZE →
        (dropOldest b).buf_len = 11844 ∧ (dropOldest b).content = b.content.drop 188) := by
  unfold dropOldest
  by_cases h : b.buf_len = BUFFER_SIZE
  · have hb : b.buf_len < SIZE_MODULUS := by rw [h]; exact buffer_size_lt
    have e : size_sub b.buf_len TS_PACKET_SIZE = b.buf_len - 188 :=
      size_sub_of_le (by rw [h]; decide) hb
    rw [if_pos h, e]
    have hv : BUFFER_SIZE = 12032 := by decide
    refine ⟨by simp only []; omega, fun h2 => absurd h (by omega),
      fun _ => ⟨by simp only []; omega, ?_⟩⟩
    unfold StreamBuffer.content
    rw [bytesOf_memmove_front, bytesOf_drop]
    rfl
  · rw [if_neg h]
    exact ⟨by omega, fun _ => rfl, fun h2 => absurd h2 h⟩

theorem readCount_spec (b : StreamBuffer) (hcap : b.buf_len ≤ BUFFER_SIZE) :
    readCount b = BUFFER_SIZE - b.buf_len := by
  unfold readCount
  exact size_sub_of_le hcap buffer_size_lt

theorem appendRead_content (b : StreamBuffer) (data : List Byte) :
    (appendRead b data).content = b.content ++ data := by
  unfold appendRead StreamBuffer.content
  exact bytesOf_writeAt _ _ _

theorem scan_spec (b : StreamBuffer) (hcap : b.buf_len ≤ BUFFER_SIZE) :
    ∃ r, scan b false = some r
      ∧ r.i ≤ b.buf_len
      ∧ (∀ c ∈ r.visited, c + TS_PACKET_SIZE ≤ b.buf_len)
      ∧ (r.hit_found = false → b.buf_len - r.i < TS_PACKET_SIZE)
      ∧ (r.hit_found = true → r.i + TS_PACKET_SIZE ≤ b.buf_len ∧ b.buffer r.i = 0x47
          ∧ get_pid (fun k => b.buffer (r.i + k)) = PID_TO_WATCH) := by
  obtain ⟨r, hr, _, h2, h3, h4, h5⟩ :=
    scanLoop_spec b.buffer b.buf_len (lt_of_le_of_lt hcap buffer_size_lt) (b.buf_len + 1) 0
      (Nat.zero_le _) (by omega)
  exact ⟨r, hr, h2, fun c hc => (h3 c hc).2, h4, h5⟩

theorem scan_total (b : StreamBuffer) (hcap : b.buf_len ≤ BUFFER_SIZE) (hit_found : Bool) :
    ∃ r, scan b hit_found = some r ∧ r.i ≤ b.buf_len := by
  cases hit_found with
  | true => exact ⟨_, scanLoop_hit_set _ _ _ _, Nat.zero_le _⟩
  | false =>
    obtain ⟨r, hr, h, _⟩ := scan_spec b hcap
    exact ⟨r, hr, h⟩

/-- Claim C9 (buffer compaction after a scan). For every buffer content of length `L`
within the capacity, the scan loop finishes at a cursor `i <= L`, and the buffer after
compaction has length `L - i` and holds exactly the bytes at offsets `i .. L-1` of the
buffer before compaction, in the same order: every byte before the cursor is
discarded and every byte from it on is kept. When no match was found fewer than 188
bytes remain; when one was found the matched packet and every byte after it remain. -/
theorem compaction_keeps_tail (b : StreamBuffer) (hcap : b.buf_len ≤ BUFFER_SIZE) :
    ∃ r, scan b false = some r
      ∧ r.i ≤ b.buf_len
      ∧ (compact b r.i).buf_len = b.buf_len - r.i
      ∧ (compact b r.i).content = b.content.drop r.i
      ∧ (∀ k, k < b.buf_len - r.i → (compact b r.i).buffer k = b.buffer (r.i + k))
      ∧ (r.hit_found = false → (compact b r.i).buf_len < TS_PACKET_SIZE)
      ∧ (r.hit_found = true → TS_PACKET_SIZE ≤ (compact b r.i).buf_len) := by
  obtain ⟨r, hr, h1, _, h3, h4⟩ := scan_spec b hcap
  obtain ⟨c1, c2⟩ := compact_spec b r.i h1 (lt_of_le_of_lt hcap buffer_size_lt)
  refine ⟨r, hr, h1, c1, c2, ?_, ?_, ?_⟩
  · intro k hk
    have hlen : (b.content.drop r.i).length = b.buf_len - r.i := by
      rw [List.length_drop, content_length]
    rw [content_getD _ _ c2 k (by omega) 0, List.getD_eq_getElem?_getD, List.getElem?_drop,
      ← List.getD_eq_getElem?_getD, ← content_getD b _ rfl (r.i + k) (by rw [content_length]; omega)]
  · intro h; rw [c1]; exact h3 h
  · intro h; rw [c1]; have := (h4 h).1; omega

theorem waitBody_deadline (inp : IterInput) (st : MainState) (tr : TrialVars)
    (h : TIMEOUT_SEC - timespec_diff_sec tr.arm_time inp.now ≤ 0) :
    waitBody inp st tr
      = some { st := st, tr := { tr with timed_out := true }, brk := true, out := [] } := by
  rw [waitBody, if_pos h]

theorem waitBody_select_error (inp : IterInput) (st : MainState) (tr : TrialVars)
    (h : ¬ TIMEOUT_SEC - timespec_diff_sec tr.arm_time inp.now ≤ 0)
    (hs : inp.select = SelectResult.error) :
    waitBody inp st tr
      = some { st := { st with keep_running := false }, tr := tr, brk := true,
               out := [Event.perrorSelect] } := by
  rw [waitBody, if_neg h, hs]

theorem waitBody_select_timeout (inp : IterInput) (st : MainState) (tr : TrialVars)
    (h : ¬ TIMEOUT_SEC - timespec_diff_sec tr.arm_time inp.now ≤ 0)
    (hs : inp.select = SelectResult.timeout) :
    waitBody inp st tr
      = some { st := st, tr := { tr with timed_out := true }, brk := true, out := [] } := by
  rw [waitBody, if_neg h, hs]

theorem waitBody_read_error (inp : IterInput) (st : MainState) (tr : TrialVars)
    (h : ¬ TIMEOUT_SEC - timespec_diff_sec tr.arm_time inp.now ≤ 0)
    (hs : inp.select = SelectResult.ready) (hr : inp.read = ReadResult.error) :
    waitBody inp st tr
      = some { st := { st with toStreamBuffer := dropOldest st.toStreamBuffer,
                               keep_running := false },
               tr := tr, brk := true, out := [Event.perrorRead] } := by
  rw [waitBody, if_neg h, hs]
  simp only [hr]

theorem waitBody_eof (inp : IterInput) (st : MainState) (tr : TrialVars) (avail : List Byte)
    (h : ¬ TIMEOUT_SEC - timespec_diff_sec tr.arm_time inp.now ≤ 0)
    (hs : inp.select = SelectResult.ready) (hr : inp.read = ReadResult.bytes avail)
    (h0 : (readData st.toStreamBuffer avail).length = 0) :
    waitBody inp st tr
      = some { st := { st with toStreamBuffer := dropOldest st.toStreamBuffer,
                               keep_running := false },
               tr := tr, brk := true, out := [Event.eofNotice] } := by
  rw [waitBody, if_neg h, hs]
  simp only [hr]
  rw [if_pos h0]

theorem waitBody_data (inp : IterInput) (st : MainState) (tr : TrialVars) (avail : List Byte)
    (r : ScanResult)
    (h : ¬ TIMEOUT_SEC - timespec_diff_sec tr.arm_time inp.now ≤ 0)
    (hs : inp.select = SelectResult.ready) (hr : inp.read = ReadResult.bytes avail)
    (h0 : (readData st.toStreamBuffer avail).length ≠ 0)
    (hscan : scan (afterRead st.toStreamBuffer avail) tr.hit_found = some r) :
    waitBody inp st tr
      = some { st := { st with toStreamBuffer := compact (afterRead st.toStreamBuffer avail) r.i },
               tr := recordHit inp.hit_clock r.hit_found tr, brk := false, out := [] } := by
  rw [waitBody, if_neg h, hs]
  simp only [hr]
  rw [if_neg h0]
  simp only [hscan]

theorem afterRead_buf_len (b : StreamBuffer) (hcap : b.buf_len ≤ BUFFER_SIZE)
    (avail : List Byte) :
    (afterRead b avail).buf_len = (dropOldest b).buf_len + (readData b avail).length
    ∧ (readData b avail).length ≤ BUFFER_SIZE - (dropOldest b).buf_len
    ∧ (afterRead b avail).buf_len ≤ BUFFER_SIZE := by
  obtain ⟨d1, _, _⟩ := dropOldest_spec b hcap
  have e : (afterRead b avail).buf_len = (dropOldest b).buf_len + (readData b avail).length := rfl
  have e2 : (readData b avail).length ≤ BUFFER_SIZE - (dropOldest b).buf_len := by
    unfold readData
    rw [List.length_take, readCount_spec _ (le_of_lt d1)]
    exact Nat.min_le_left _ _
  exact ⟨e, e2, by omega⟩

theorem waitBody_inv (inp : IterInput) (st : MainState) (tr : TrialVars)
    (hcap : st.buf_len ≤ BUFFER_SIZE) :
    ∃ r, waitBody inp st tr = some r ∧ r.st.buf_len ≤ BUFFER_SIZE := by
  obtain ⟨d1, _, _⟩ := dropOldest_spec st.toStreamBuffer hcap
  by_cases h : TIMEOUT_SEC - timespec_diff_sec tr.arm_time inp.now ≤ 0
  · exact ⟨_, waitBody_deadline inp st tr h, hcap⟩
  · cases hs : inp.select with
    | error => exact ⟨_, waitBody_select_error inp st tr h hs, hcap⟩
    | timeout => exact ⟨_, waitBody_select_timeout inp st tr h hs, hcap⟩
    | ready =>
      cases hr : inp.read with
      | error => exact ⟨_, waitBody_read_error inp st tr h hs hr, le_of_lt d1⟩
      | bytes avail =>
        by_cases h0 : (readData st.toStreamBuffer avail).length = 0
        · exact ⟨_, waitBody_eof inp st tr avail h hs hr h0, le_of_lt d1⟩
        · have hb2 := (afterRead_buf_len st.toStreamBuffer hcap avail).2.2
          obtain ⟨r, hscan, hi⟩ := scan_total _ hb2 tr.hit_found
          refine ⟨_, waitBody_data inp st tr avail r h hs hr h0 hscan, ?_⟩
          show (compact _ r.i).buf_len ≤ BUFFER_SIZE
          rw [(compact_spec _ r.i hi (lt_of_le_of_lt hb2 buffer_size_lt)).1]
          omega

theorem deliver_buf_len (sigint : Bool) (st : MainState) :
    (deliver sigint st).buf_len = st.buf_len := by
  cases sigint <;> rfl

theorem waitLoop_done (tape : List IterInput) (st : MainState) (tr : TrialVars)
    (h : (tr.hit_found || tr.timed_out) = true) :
    waitLoop tape st tr
      = some { st := st, tr := tr, left := true, out := [], rest := tape } := by
  cases tape <;> rw [waitLoop, if_pos h]

theorem waitLoop_nil (st : MainState) (tr : TrialVars)
    (h : ¬ (tr.hit_found || tr.timed_out) = true) :
    waitLoop [] st tr
      = some { st := st, tr := tr, left := false, out := [], rest := [] } := by
  rw [waitLoop, if_neg h]

theorem waitLoop_sigint (inp : IterInput) (rest : List IterInput) (st : MainState)
    (tr : TrialVars) (h : ¬ (tr.hit_found || tr.timed_out) = true)
    (hk : ¬ (deliver inp.sigint st).keep_running = true) :
    waitLoop (inp :: rest) st tr
      = some { st := deliver inp.sigint st, tr := tr, left := true, out := [], rest := rest } := by
  rw [waitLoop, if_neg h]
  simp only [hk]
  rfl

theorem waitLoop_break (inp : IterInput) (rest : List IterInput) (st : MainState)
    (tr : TrialVars) (r : BodyResult) (h : ¬ (tr.hit_found || tr.timed_out) = true)
    (hk : (deliver inp.sigint st).keep_running = true)
    (hbody : waitBody inp (deliver inp.sigint st) tr = some r) (hb : r.brk = true) :
    waitLoop (inp :: rest) st tr
      = some { st := r.st, tr := r.tr, left := true, out := r.out, rest := rest } := by
  rw [waitLoop, if_neg h]
  simp only [hk, hbody, hb, if_true]

theorem waitLoop_continue (inp : IterInput) (rest : List IterInput) (st : MainState)
    (tr : TrialVars) (r : BodyResult) (h : ¬ (tr.hit_found || tr.timed_out) = true)
    (hk : (deliver inp.sigint st).keep_running = true)
    (hbody : waitBody inp (deliver inp.sigint st) tr = some r) (hb : ¬ r.brk = true) :
    waitLoop (inp :: rest) st tr
      = (waitLoop rest r.st r.tr).map fun l => { l with out := r.out ++ l.out } := by
  rw [waitLoop, if_neg h]
  simp only [hk, hbody, hb, if_true]
  rfl

theorem waitLoop_inv : ∀ (tape : List IterInput) (st : MainState) (tr : TrialVars),
    st.buf_len ≤ BUFFER_SIZE →
      ∃ l, waitLoop tape st tr = some l ∧ l.st.buf_len ≤ BUFFER_SIZE := by
  intro tape
  induction tape with
  | nil =>
    intro st tr hcap
    by_cases h : (tr.hit_found || tr.timed_out) = true
    · exact ⟨_, waitLoop_done _ st tr h, hcap⟩
    · exact ⟨_, waitLoop_nil st tr h, hcap⟩
  | cons inp rest ih =>
    intro st tr hcap
    by_cases h : (tr.hit_found || tr.timed_out) = true
    · exact ⟨_, waitLoop_done _ st tr h, hcap⟩
    · by_cases hk : (deliver inp.sigint st).keep_running = true
      · obtain ⟨r, hr, hcap2⟩ := waitBody_inv inp (deliver inp.sigint st) tr
          (by rw [deliver_buf_len]; exact hcap)
        by_cases hb : r.brk = true
        · exact ⟨_, waitLoop_break inp rest st tr r h hk hr hb, hcap2⟩
        · obtain ⟨l, hl, hcap3⟩ := ih r.st r.tr hcap2
          exact ⟨{ l with out := r.out ++ l.out },
            by rw [waitLoop_continue inp rest st tr r h hk hr hb, hl]; rfl, hcap3⟩
      · exact ⟨_, waitLoop_sigint inp rest st tr h hk,
          by show (deliver inp.sigint st).buf_len ≤ _; rw [deliver_buf_len]; exact hcap⟩

theorem trial_left (inp : TrialInput) (tape : List IterInput) (st : MainState) (l : LoopResult)
    (hl : waitLoop tape (nextIndex st) (armVars inp.arm_clock) = some l) (h : l.left = true) :
    trial inp tape st = some (resolve inp.sigint_end l) := by
  rw [trial]
  simp only [hl, h, if_true]

theorem trial_blocked (inp : TrialInput) (tape : List IterInput) (st : MainState)
    (l : LoopResult)
    (hl : waitLoop tape (nextIndex st) (armVars inp.arm_clock) = some l) (h : ¬ l.left = true) :
    trial inp tape st
      = some { st := l.st, tr := l.tr, ending := TrialEnd.blocked, rest := l.rest,
               out := [Event.gpioWrite true] ++ l.out } := by
  rw [trial]
  simp only [hl, h]
  rfl

theorem resolve_buf_len (sigint_end : Bool) (l : LoopResult) :
    (resolve sigint_end l).st.buf_len = l.st.buf_len := by
  unfold resolve
  split <;> exact deliver_buf_len _ _

theorem trial_inv (inp : TrialInput) (tape : List IterInput) (st : MainState)
    (hcap : st.buf_len ≤ BUFFER_SIZE) :
    ∃ t, trial inp tape st = some t ∧ t.st.buf_len ≤ BUFFER_SIZE := by
  obtain ⟨l, hl, hcap2⟩ := waitLoop_inv tape (nextIndex st) (armVars inp.arm_clock) hcap
  by_cases h1 : l.left = true
  · exact ⟨_, trial_left inp tape st l hl h1, by rw [resolve_buf_len]; exact hcap2⟩
  · exact ⟨_, trial_blocked inp tape st l hl h1, hcap2⟩

theorem trialLoop_sigint (inp : TrialInput) (more : List TrialInput) (tape : List IterInput)
    (st : MainState) (hk : ¬ (deliver inp.sigint_head st).keep_running = true) :
    trialLoop (inp :: more) tape st
      = some { st := deliver inp.sigint_head st, left := true, trials := [] } := by
  rw [trialLoop]
  simp only [hk]
  rfl

theorem trialLoop_blocked (inp : TrialInput) (more : List TrialInput) (tape : List IterInput)
    (st : MainState) (t : TrialResult) (hk : (deliver inp.sigint_head st).keep_running = true)
    (ht : trial inp tape (deliver inp.sigint_head st) = some t)
    (he : t.ending = TrialEnd.blocked) :
    trialLoop (inp :: more) tape st = some { st := t.st, left := false, trials := [t.out] } := by
  rw [trialLoop]
  simp only [hk, ht, he, if_true]

theorem trialLoop_stopped (inp : TrialInput) (more : List TrialInput) (tape : List IterInput)
    (st : MainState) (t : TrialResult) (hk : (deliver inp.sigint_head st).keep_running = true)
    (ht : trial inp tape (deliver inp.sigint_head st) = some t)
    (he : t.ending = TrialEnd.stopped) :
    trialLoop (inp :: more) tape st = some { st := t.st, left := true, trials := [t.out] } := by
  rw [trialLoop]
  simp only [hk, ht, he, if_true]

theorem trialLoop_reported (inp : TrialInput) (more : List TrialInput) (tape : List IterInput)
    (st : MainState) (t : TrialResult) (hk : (deliver inp.sigint_head st).keep_running = true)
    (ht : trial inp tape (deliver inp.sigint_head st) = some t)
    (he : t.ending = TrialEnd.reported) :
    trialLoop (inp :: more) tape st
      = (trialLoop more t.rest t.st).map fun r => { r with trials := t.out :: r.trials } := by
  rw [trialLoop]
  simp only [hk, ht, he, if_true]

theorem trialLoop_inv : ∀ (inputs : List TrialInput) (tape : List IterInput) (st : MainState),
    st.buf_len ≤ BUFFER_SIZE →
      ∃ r, trialLoop inputs tape st = some r ∧ r.st.buf_len ≤ BUFFER_SIZE := by
  intro inputs
  induction inputs with
  | nil => intro tape st hcap; exact ⟨_, rfl, hcap⟩
  | cons inp more ih =>
    intro tape st hcap
    by_cases hk : (deliver inp.sigint_head st).keep_running = true
    · obtain ⟨t, ht, hcap2⟩ := trial_inv inp tape (deliver inp.sigint_head st)
        (by rw [deliver_buf_len]; exact hcap)
      cases he : t.ending with
      | blocked => exact ⟨_, trialLoop_blocked inp more tape st t hk ht he, hcap2⟩
      | stopped => exact ⟨_, trialLoop_stopped inp more tape st t hk ht he, hcap2⟩
      | reported =>
        obtain ⟨r, hr, hcap3⟩ := ih t.rest t.st hcap2
        exact ⟨{ r with trials := t.out :: r.trials },
          by rw [trialLoop_reported inp more tape st t hk ht he, hr]; rfl, hcap3⟩
    · exact ⟨_, trialLoop_sigint inp more tape st hk,
        by show (deliver inp.sigint_head st).buf_len ≤ _; rw [deliver_buf_len]; exact hcap⟩

/-- An event of the wait loop itself: a diagnostic on standard error. -/
theorem waitBody_out (inp : IterInput) (st : MainState) (tr : TrialVars) (r : BodyResult)
    (h : waitBody inp st tr = some r) :
    ∀ e ∈ r.out, e = Event.perrorSelect ∨ e = Event.perrorRead ∨ e = Event.eofNotice := by
  rw [waitBody] at h
  split at h
  · cases h; simp
  · split at h
    · cases h; simp
    · cases h; simp
    · split at h
      · cases h; simp
      · split at h
        · cases h; simp
        · split at h
          · cases h
          · cases h; simp

/-- A pass of the wait loop that is not left by `break` read some bytes, scanned
the buffer and compacted it. -/
theorem waitBody_continue (inp : IterInput) (st : MainState) (tr : TrialVars) (r : BodyResult)
    (h : waitBody inp st tr = some r) (hb : r.brk = false) :
    ¬ TIMEOUT_SEC - timespec_diff_sec tr.arm_time inp.now ≤ 0
    ∧ inp.select = SelectResult.ready
    ∧ ∃ avail rs, inp.read = ReadResult.bytes avail
        ∧ (readData st.toStreamBuffer avail).length ≠ 0
        ∧ scan (afterRead st.toStreamBuffer avail) tr.hit_found = some rs
        ∧ r = { st := { st with toStreamBuffer := compact (afterRead st.toStreamBuffer avail) rs.i },
                tr := recordHit inp.hit_clock rs.hit_found tr, brk := false, out := [] } := by
  rw [waitBody] at h
  split at h
  · cases h; simp at hb
  · rename_i hrem
    split at h
    · cases h; simp at hb
    · cases h; simp at hb
    · rename_i hsel
      split at h
      · cases h; simp at hb
      · rename_i avail hread
        split at h
        · cases h; simp at hb
        · rename_i hlen
          split at h
          · cases h
          · rename_i rs hscan
            cases h
            exact ⟨hrem, hsel, avail, rs, hread, hlen, hscan, rfl⟩

theorem waitLoop_cons_running (inp : IterInput) (pre : List IterInput) (st : MainState)
    (tr : TrialVars) (l : LoopResult) (h : waitLoop (inp :: pre) st tr = some l)
    (hl : l.left = false) :
    ¬ (tr.hit_found || tr.timed_out) = true
    ∧ (deliver inp.sigint st).keep_running = true
    ∧ ∃ r l2, waitBody inp (deliver inp.sigint st) tr = some r ∧ r.brk = false
        ∧ waitLoop pre r.st r.tr = some l2 ∧ l2.left = false
        ∧ l = { l2 with out := r.out ++ l2.out } := by
  by_cases hf : (tr.hit_found || tr.timed_out) = true
  · rw [waitLoop_done _ st tr hf] at h
    cases h; simp at hl
  · by_cases hk : (deliver inp.sigint st).keep_running = true
    · refine ⟨hf, hk, ?_⟩
      cases hb : waitBody inp (deliver inp.sigint st) tr with
      | none =>
        rw [waitLoop, if_neg hf] at h
        simp only [hk, hb, if_true] at h
        cases h
      | some r =>
        by_cases hbrk : r.brk = true
        · rw [waitLoop_break inp pre st tr r hf hk hb hbrk] at h
          cases h; simp at hl
        · rw [waitLoop_continue inp pre st tr r hf hk hb hbrk] at h
          cases hl2 : waitLoop pre r.st r.tr with
          | none => rw [hl2] at h; cases h
          | some l2 =>
            rw [hl2] at h
            simp only [Option.map_some', Option.some.injEq] at h
            refine ⟨r, l2, rfl, by simpa using hbrk, hl2, ?_, h.symm⟩
            rw [← h] at hl
            exact hl
    · rw [waitLoop_sigint inp pre st tr hf hk] at h
      cases h; simp at hl

theorem waitLoop_nil_running (st : MainState) (tr : TrialVars) (l : LoopResult)
    (h : waitLoop [] st tr = some l) (hl : l.left = false) :
    ¬ (tr.hit_found || tr.timed_out) = true
    ∧ l = { st := st, tr := tr, left := false, out := [], rest := [] } := by
  by_cases hf : (tr.hit_found || tr.timed_out) = true
  · rw [waitLoop_done _ st tr hf] at h
    cases h; simp at hl
  · rw [waitLoop_nil st tr hf] at h
    cases h
    exact ⟨hf, rfl⟩

/-- A wait loop that is still running after the passes `pre` goes on with the passes
that follow. -/
theorem waitLoop_append : ∀ (pre : List IterInput) (st : MainState) (tr : TrialVars)
    (l : LoopResult), waitLoop pre st tr = some l → l.left = false →
      ∀ rest, waitLoop (pre ++ rest) st tr
        = (waitLoop rest l.st l.tr).map fun l2 => { l2 with out := l.out ++ l2.out } := by
  intro pre
  induction pre with
  | nil =>
    intro st tr l h hl rest
    obtain ⟨_, e⟩ := waitLoop_nil_running st tr l h hl
    subst e
    cases hw : waitLoop rest st tr <;> simp [hw]
  | cons inp pre ih =>
    intro st tr l h hl rest
    obtain ⟨hf, hk, r, l2, hb, hbrk, hl2, hleft, e⟩ := waitLoop_cons_running inp pre st tr l h hl
    subst e
    rw [List.cons_append, waitLoop_continue inp (pre ++ rest) st tr r hf hk hb (by simp [hbrk]),
      ih r.st r.tr l2 hl2 hleft rest]
    cases hw : waitLoop rest l2.st l2.tr <;> simp [hw]

/-- While the wait loop is still running, neither flag of the trial is set. -/
theorem waitLoop_running_flags : ∀ (pre : List IterInput) (st : MainState) (tr : TrialVars)
    (l : LoopResult), waitLoop pre st tr = some l → l.left = false →
      l.tr.hit_found = false ∧ l.tr.timed_out = false ∧ l.tr.arm_time = tr.arm_time
      ∧ l.st.measurement_index = st.measurement_index := by
  intro pre
  induction pre with
  | nil =>
    intro st tr l h hl
    obtain ⟨hf, e⟩ := waitLoop_nil_running st tr l h hl
    subst e
    simp at hf
    exact ⟨hf.1, hf.2, rfl, rfl⟩
  | cons inp pre ih =>
    intro st tr l h hl
    obtain ⟨hf, hk, r, l2, hb, hbrk, hl2, hleft, e⟩ := waitLoop_cons_running inp pre st tr l h hl
    subst e
    obtain ⟨i1, i2, i3, i4⟩ := ih r.st r.tr l2 hl2 hleft
    obtain ⟨_, _, avail, rs, _, _, _, e⟩ := waitBody_continue inp _ tr r hb hbrk
    subst e
    refine ⟨i1, i2, ?_, ?_⟩
    · rw [i3]
      unfold recordHit
      split <;> rfl
    · rw [i4]
      show (deliver inp.sigint st).measurement_index = _
      cases inp.sigint <;> rfl

/-- The exact elapsed time is the difference of the two instants, whether or not the
nanosecond fields borrow, when no step of the `long` arithmetic leaves the range. -/
theorem timespec_diff_sec_eq (start stop : Timespec)
    (hs : start.normalised) (he : stop.normalised)
    (hlo : LONG_MIN < stop.tv_sec - start.tv_sec)
    (hhi : stop.tv_sec - start.tv_sec ≤ LONG_MAX) :
    timespec_diff_sec start stop = ((stop.toNanos - start.toNanos : Int) : ℚ) / 1000000000 := by
  unfold timespec_diff_sec
  rw [diff_parts_exact start stop hs he hlo hhi]
  unfold Timespec.toNanos
  split <;> (push_cast; ring)

/-- The test `remaining <= 0.0` of line 99, with time taken as exact values and no
step of the `long` arithmetic leaving the range: at least 20 seconds have passed
since the arm. -/
theorem remaining_le_zero_iff (arm now : Timespec)
    (hs : arm.normalised) (he : now.normalised)
    (hlo : LONG_MIN < now.tv_sec - arm.tv_sec)
    (hhi : now.tv_sec - arm.tv_sec ≤ LONG_MAX) :
    TIMEOUT_SEC - timespec_diff_sec arm now ≤ 0 ↔ 20000000000 ≤ now.toNanos - arm.toNanos := by
  rw [timespec_diff_sec_eq arm now hs he hlo hhi]
  unfold TIMEOUT_SEC
  rw [sub_nonpos, le_div_iff₀ (by norm_num)]
  constructor
  · intro h
    have : ((20000000000 : Int) : ℚ) ≤ ((now.toNanos - arm.toNanos : Int) : ℚ) := by
      push_cast at h ⊢; linarith
    exact_mod_cast this
  · intro h
    have : ((20000000000 : Int) : ℚ) ≤ ((now.toNanos - arm.toNanos : Int) : ℚ) := by
      exact_mod_cast h
    push_cast at this ⊢; linarith

theorem waitLoop_out : ∀ (tape : List IterInput) (st : MainState) (tr : TrialVars)
    (l : LoopResult), waitLoop tape st tr = some l →
      ∀ e ∈ l.out, e = Event.perrorSelect ∨ e = Event.perrorRead ∨ e = Event.eofNotice := by
  intro tape
  induction tape with
  | nil =>
    intro st tr l h
    by_cases hf : (tr.hit_found || tr.timed_out) = true
    · rw [waitLoop_done _ st tr hf] at h; cases h; simp
    · rw [waitLoop_nil st tr hf] at h; cases h; simp
  | cons inp rest ih =>
    intro st tr l h
    by_cases hf : (tr.hit_found || tr.timed_out) = true
    · rw [waitLoop_done _ st tr hf] at h; cases h; simp
    · by_cases hk : (deliver inp.sigint st).keep_running = true
      · cases hb : waitBody inp (deliver inp.sigint st) tr with
        | none =>
          rw [waitLoop, if_neg hf] at h
          simp only [hk, hb, if_true] at h
          cases h
        | some r =>
          have hro := waitBody_out inp _ tr r hb
          by_cases hbrk : r.brk = true
          · rw [waitLoop_break inp rest st tr r hf hk hb hbrk] at h
            cases h; exact hro
          · rw [waitLoop_continue inp rest st tr r hf hk hb hbrk] at h
            cases hl2 : waitLoop rest r.st r.tr with
            | none => rw [hl2] at h; cases h
            | some l2 =>
              rw [hl2] at h
              simp only [Option.map_some', Option.some.injEq] at h
              subst h
              intro e he
              rcases List.mem_append.mp he with h1 | h1
              · exact hro e h1
              · exact ih r.st r.tr l2 hl2 e h1
      · rw [waitLoop_sigint inp rest st tr hf hk] at h; cases h; simp

theorem deliver_of_running (sigint : Bool) (st : MainState)
    (h : (deliver sigint st).keep_running = true) : deliver sigint st = st := by
  cases sigint with
  | false => rfl
  | true => simp [deliver, intHandler] at h

theorem deliver_stopped (sigint : Bool) (st : MainState) (h : st.keep_running = false) :
    (deliver sigint st).keep_running = false := by
  cases sigint with
  | false => exact h
  | true => rfl

/-- With `keep_running` cleared the trial is left at line 184: nothing is reported,
whatever `hit_found` and `timed_out` hold, and the pin was driven low. -/
theorem resolve_stopped (sigint_end : Bool) (l : LoopResult)
    (h : (deliver sigint_end l.st).keep_running = false) :
    resolve sigint_end l
      = { st := deliver sigint_end l.st, tr := l.tr, ending := TrialEnd.stopped, rest := l.rest,
          out := [Event.gpioWrite true] ++ l.out ++ [Event.gpioWrite false] } := by
  unfold resolve
  rw [if_neg (by simp [h])]

theorem gpioLevels_diag (evs : List Event)
    (h : ∀ e ∈ evs, e = Event.perrorSelect ∨ e = Event.perrorRead ∨ e = Event.eofNotice) :
    gpioLevels evs = [] := by
  unfold gpioLevels
  rw [List.filterMap_eq_nil_iff]
  intro e he
  rcases h e he with rfl | rfl | rfl <;> rfl

theorem gpioLevels_append (a b : List Event) :
    gpioLevels (a ++ b) = gpioLevels a ++ gpioLevels b := by
  unfold gpioLevels
  exact List.filterMap_append _ _ _

/-- The wait loop up to and including a pass that is left by `break`. -/
theorem waitLoop_reach_break (pre post : List IterInput) (it : IterInput) (st : MainState)
    (tr : TrialVars) (l : LoopResult) (r : BodyResult)
    (hpre : waitLoop pre st tr = some l) (hrun : l.left = false)
    (hk : (deliver it.sigint l.st).keep_running = true)
    (hbody : waitBody it l.st l.tr = some r) (hbrk : r.brk = true) :
    waitLoop (pre ++ it :: post) st tr
      = some { st := r.st, tr := r.tr, left := true, out := l.out ++ r.out, rest := post } := by
  obtain ⟨f1, f2, _, _⟩ := waitLoop_running_flags pre st tr l hpre hrun
  have hd := deliver_of_running it.sigint l.st hk
  rw [waitLoop_append pre st tr l hpre hrun,
    waitLoop_break it post l.st l.tr r (by simp [f1, f2]) hk (by rw [hd]; exact hbody) hbrk]
  rfl

/-- Claim C4 (scenario C, abort). Take any trial, armed in any state `st`, whose wait
loop is still running after the passes `pre`, and let the next pass `it` reach its
`select` (the flag is still set and the timeout has not elapsed). If `select` fails,
or `read` fails, or `read` returns zero bytes, then the trial is left at line 184:
`keep_running` is cleared, no hit and no timeout is reported, the last GPIO write of
the trial drives the pin low, and the outer loop is left with this trial as its last
one, whatever inputs remain. The last part states why the flags `hit_found` and
`timed_out` cannot change this: with `keep_running` cleared the resolution reports
nothing, whatever they hold. -/
theorem abort_resolves (inp : TrialInput) (pre post : List IterInput) (it : IterInput)
    (st : MainState) (l : LoopResult)
    (hpre : waitLoop pre (nextIndex st) (armVars inp.arm_clock) = some l)
    (hrun : l.left = false)
    (hk : (deliver it.sigint l.st).keep_running = true)
    (hrem : ¬ TIMEOUT_SEC - timespec_diff_sec l.tr.arm_time it.now ≤ 0)
    (hab : it.select = SelectResult.error
      ∨ (it.select = SelectResult.ready ∧ it.read = ReadResult.error)
      ∨ (it.select = SelectResult.ready ∧ ∃ avail, it.read = ReadResult.bytes avail
          ∧ (readData l.st.toStreamBuffer avail).length = 0)) :
    ∃ t, trial inp (pre ++ it :: post) st = some t
      ∧ t.ending = TrialEnd.stopped
      ∧ t.st.keep_running = false
      ∧ (∀ e ∈ t.out, e.isHit = false ∧ e.isTimeout = false)
      ∧ (gpioLevels t.out).getLast? = some false
      ∧ (∀ (more : List TrialInput) (st0 : MainState),
          deliver inp.sigint_head st0 = st → st.keep_running = true →
            trialLoop (inp :: more) (pre ++ it :: post) st0
              = some { st := t.st, left := true, trials := [t.out] })
      ∧ (∀ (sigint_end : Bool) (l2 : LoopResult), l2.st.keep_running = false →
          (resolve sigint_end l2).ending = TrialEnd.stopped
          ∧ (resolve sigint_end l2).out
              = [Event.gpioWrite true] ++ l2.out ++ [Event.gpioWrite false]) := by
  have hbody : ∃ r, waitBody it l.st l.tr = some r ∧ r.brk = true ∧ r.st.keep_running = false := by
    rcases hab with hs | ⟨hs, hr⟩ | ⟨hs, avail, hr, h0⟩
    · exact ⟨_, waitBody_select_error it l.st l.tr hrem hs, rfl, rfl⟩
    · exact ⟨_, waitBody_read_error it l.st l.tr hrem hs hr, rfl, rfl⟩
    · exact ⟨_, waitBody_eof it l.st l.tr avail hrem hs hr h0, rfl, rfl⟩
  obtain ⟨r, hr, hbrk, hstop⟩ := hbody
  have hloop := waitLoop_reach_break pre post it _ _ l r hpre hrun hk hr hbrk
  have hdiag : ∀ e ∈ l.out ++ r.out,
      e = Event.perrorSelect ∨ e = Event.perrorRead ∨ e = Event.eofNotice := by
    intro e he
    rcases List.mem_append.mp he with h1 | h1
    · exact waitLoop_out pre _ _ l hpre e h1
    · exact waitBody_out it _ _ r hr e h1
  have htrial := trial_left inp (pre ++ it :: post) st _ hloop rfl
  have hres := resolve_stopped inp.sigint_end
    { st := r.st, tr := r.tr, left := true, out := l.out ++ r.out, rest := post }
    (deliver_stopped _ _ hstop)
  rw [hres] at htrial
  refine ⟨_, htrial, rfl, deliver_stopped _ _ hstop, ?_, ?_, ?_, fun s2 l2 h2 => by
    rw [resolve_stopped s2 l2 (deliver_stopped _ _ h2)]; exact ⟨rfl, rfl⟩⟩
  · intro e he
    simp only [List.mem_append, List.mem_singleton] at he
    rcases he with (rfl | h1) | rfl
    · exact ⟨rfl, rfl⟩
    · rcases hdiag e (List.mem_append.mpr h1) with rfl | rfl | rfl <;> exact ⟨rfl, rfl⟩
    · exact ⟨rfl, rfl⟩
  · simp only [gpioLevels_append, gpioLevels_diag _ hdiag]
    rfl
  · intro more st0 hst hkr
    subst hst
    exact trialLoop_stopped inp more _ st0 _ hkr htrial rfl

/-- The end of the stream met by the second `read` of a trial, after a first read
that returned one packet with another identifier. -/
theorem abort_resolves_witness :
    ∃ t, trial (trialAt ⟨0, 0⟩ false)
          ([readInput ⟨1, 0⟩ (samplePacket 0 1)] ++ readInput ⟨2, 0⟩ [] :: [])
          (initialState fun _ => 0) = some t
      ∧ t.ending = TrialEnd.stopped
      ∧ (∀ e ∈ t.out, e.isHit = false ∧ e.isTimeout = false)
      ∧ (gpioLevels t.out).getLast? = some false := by
  have hfacts : (waitLoop [readInput ⟨1, 0⟩ (samplePacket 0 1)]
      (nextIndex (initialState fun _ => 0)) (armVars ⟨0, 0⟩)).map
        (fun l => (l.left, l.st.keep_running, l.tr.arm_time))
      = some (false, true, ⟨0, 0⟩) := by decide!
  obtain ⟨l, hl⟩ : ∃ l, waitLoop [readInput ⟨1, 0⟩ (samplePacket 0 1)]
      (nextIndex (initialState fun _ => 0)) (armVars ⟨0, 0⟩) = some l := by
    cases h : waitLoop [readInput ⟨1, 0⟩ (samplePacket 0 1)]
      (nextIndex (initialState fun _ => 0)) (armVars ⟨0, 0⟩) with
    | none => rw [h] at hfacts; cases hfacts
    | some l => exact ⟨l, rfl⟩
  rw [hl] at hfacts
  simp only [Option.map_some', Option.some.injEq, Prod.mk.injEq] at hfacts
  obtain ⟨f1, f2, f3⟩ := hfacts
  have hrem : ¬ TIMEOUT_SEC - timespec_diff_sec l.tr.arm_time (readInput ⟨2, 0⟩ []).now ≤ 0 := by
    rw [f3, remaining_le_zero_iff ⟨0, 0⟩ (readInput ⟨2, 0⟩ []).now (by decide) (by decide)
      (by decide) (by decide)]
    decide
  obtain ⟨t, h1, h2, _, h4, h5, _⟩ :=
    abort_resolves (trialAt ⟨0, 0⟩ false) [readInput ⟨1, 0⟩ (samplePacket 0 1)] []
      (readInput ⟨2, 0⟩ []) (initialState fun _ => 0) l hl f1 f2 hrem
      (Or.inr (Or.inr ⟨rfl, [], rfl, by simp [readData]⟩))
  exact ⟨t, h1, h2, h4, h5⟩

/-- Claim C10 (bounds of the stream buffer). The capacity is `64 * 188 = 12032`.
Through every sequence of trials and passes of the wait loop, whatever the reads
return, every scan loop finishes and `buf_len` never exceeds the capacity (a run that
is cut short at any point is the run on the inputs up to that point, so this holds at
every head of a loop). From every buffer within the capacity: the length asked of
`read` is `capacity - buf_len` after the full-buffer drop and is at least 1; a buffer
that is not full is left as it is, a full one loses exactly its oldest 188 bytes and
keeps the other 11844 in order; a `read` with bytes available returns at least one,
so only the end of the stream gives zero; after the read `buf_len` is within the
capacity; the scan loop finishes with its cursor `i <= buf_len`; at every test of its
condition the subtraction `buf_len - i` does not wrap; at every cursor where its body
runs the offsets `i`, `i + 1`, `i + 2` are below `buf_len`; and the compacted buffer
is within the capacity again. -/
theorem stream_buffer_bounds :
    BUFFER_SIZE = 12032
    ∧ (∀ (inputs : List TrialInput) (tape : List IterInput) (buffer0 : Mem),
        ∃ r, trialLoop inputs tape (initialState buffer0) = some r
          ∧ r.st.buf_len ≤ BUFFER_SIZE)
    ∧ (∀ b : StreamBuffer, b.buf_len ≤ BUFFER_SIZE →
        1 ≤ readCount (dropOldest b)
        ∧ readCount (dropOldest b) = BUFFER_SIZE - (dropOldest b).buf_len
        ∧ (b.buf_len < BUFFER_SIZE → dropOldest b = b)
        ∧ (b.buf_len = BUFFER_SIZE →
            (dropOldest b).buf_len = 11844 ∧ (dropOldest b).content = b.content.drop 188)
        ∧ ∀ avail : List Byte,
            (avail ≠ [] → 1 ≤ (readData b avail).length)
            ∧ (readData b avail).length ≤ readCount (dropOldest b)
            ∧ (afterRead b avail).buf_len ≤ BUFFER_SIZE
            ∧ ∃ r, scan (afterRead b avail) false = some r
                ∧ r.i ≤ (afterRead b avail).buf_len
                ∧ size_sub (afterRead b avail).buf_len r.i = (afterRead b avail).buf_len - r.i
                ∧ (∀ c ∈ r.visited, c ≤ (afterRead b avail).buf_len
                    ∧ size_sub (afterRead b avail).buf_len c = (afterRead b avail).buf_len - c
                    ∧ c + 2 < (afterRead b avail).buf_len)
                ∧ (compact (afterRead b avail) r.i).buf_len ≤ BUFFER_SIZE) := by
  refine ⟨by decide, fun inputs tape buffer0 => trialLoop_inv inputs tape _ (Nat.zero_le _), ?_⟩
  intro b hcap
  obtain ⟨d1, d2, d3⟩ := dropOldest_spec b hcap
  have hrc := readCount_spec (dropOldest b) (le_of_lt d1)
  refine ⟨by omega, hrc, d2, d3, ?_⟩
  intro avail
  obtain ⟨a1, a2, a3⟩ := afterRead_buf_len b hcap avail
  have hlt := lt_of_le_of_lt a3 buffer_size_lt
  obtain ⟨r, hr, r1, r2, _⟩ := scan_spec (afterRead b avail) a3
  refine ⟨?_, by omega, a3, r, hr, r1, size_sub_of_le r1 hlt, ?_, ?_⟩
  · intro hne
    unfold readData
    rw [List.length_take, hrc]
    have : 1 ≤ avail.length := List.length_pos.mpr hne
    omega
  · intro c hc
    have := r2 c hc
    unfold TS_PACKET_SIZE at this
    exact ⟨by omega, size_sub_of_le (by omega) hlt, by omega⟩
  · rw [(compact_spec _ r.i r1 hlt).1]
    omega

/-- Two bytes of garbage before the packet: the hit is at cursor 2. -/
theorem scan_resync_witness :
    scan resyncSample false = some { i := 2, hit_found := true, visited := [0, 1, 2] } := by
  have h1 : ∀ x ∈ ([0, 1] : List Byte), x ≠ 0x47 := by decide
  have h2 : IsPacket (samplePacket 4 4) := by decide
  have h3 : pidOf (samplePacket 4 4) = PID_TO_WATCH := by decide
  have h4 : resyncSample.content = [0, 1] ++ samplePacket 4 4 := by decide!
  have h5 : resyncSample.buf_len ≤ BUFFER_SIZE := by decide
  exact scan_resync [0, 1] (samplePacket 4 4) resyncSample h1 h2 h3 h4 h5

/-- Compaction of the sample buffer after its scan. -/
theorem compaction_keeps_tail_witness :
    ∃ r, scan resyncSample false = some r
      ∧ (compact resyncSample r.i).content = resyncSample.content.drop r.i := by
  have h5 : resyncSample.buf_len ≤ BUFFER_SIZE := by decide
  obtain ⟨r, h1, _, _, h4, _⟩ := compaction_keeps_tail resyncSample h5
  exact ⟨r, h1, h4⟩

theorem packets_flatten_length (pkts : List (List Byte)) (h : ∀ p ∈ pkts, IsPacket p) :
    pkts.flatten.length = 188 * pkts.length := by
  induction pkts with
  | nil => rfl
  | cons p ps ih =>
    have hp : p.length = 188 := (h p (List.mem_cons_self _ _)).1
    rw [List.flatten_cons, List.length_append, hp,
      ih (fun q hq => h q (List.mem_cons_of_mem _ hq)), List.length_cons]
    omega

/-- The scan loop walks over back-to-back synced packets and stops at the first one
that carries the watched identifier. -/
theorem scanLoop_packets (buffer : Mem) (buf_len : Nat) (hb : buf_len < SIZE_MODULUS) :
    ∀ (pkts : List (List Byte)) (o fuel : Nat),
      (∀ k, k < pkts.flatten.length → buffer (o + k) = pkts.flatten.getD k 0) →
      o + pkts.flatten.length ≤ buf_len →
      (∀ p ∈ pkts, IsPacket p) → (∃ p ∈ pkts, pidOf p = PID_TO_WATCH) →
      pkts.length ≤ fuel →
        ∃ r, scanLoop buffer buf_len fuel o false = some r ∧ r.hit_found = true := by
  intro pkts
  induction pkts with
  | nil => intro o fuel _ _ _ hex; obtain ⟨p, hp, _⟩ := hex; cases hp
  | cons p ps ih =>
    intro o fuel hbuf hlen hpk hex hfuel
    have hp := hpk p (List.mem_cons_self _ _)
    have hpl : p.length = 188 := hp.1
    have hfl : (p :: ps).flatten.length = 188 + ps.flatten.length := by
      rw [List.flatten_cons, List.length_append, hpl]
    have hhead : ∀ k, k < 188 → buffer (o + k) = p.getD k 0 := by
      intro k hk
      rw [hbuf k (by omega), List.flatten_cons, List.getD_eq_getElem?_getD,
        List.getD_eq_getElem?_getD, List.getElem?_append_left (by omega)]
    obtain ⟨fuel, rfl⟩ : ∃ f, fuel = f + 1 := ⟨fuel - 1, by simp at hfuel; omega⟩
    have hsync : buffer o = 0x47 := by
      have := hhead 0 (by omega)
      rw [Nat.add_zero] at this
      rw [this]; exact hp.2
    have hpid : get_pid (fun k => buffer (o + k)) = pidOf p :=
      get_pid_congr _ _ (hhead 1 (by omega)) (hhead 2 (by omega))
    by_cases ht : pidOf p = PID_TO_WATCH
    · exact ⟨_, scanLoop_hit buffer buf_len fuel o hb (by omega) hsync (by rw [hpid]; exact ht),
        rfl⟩
    · have hex2 : ∃ q ∈ ps, pidOf q = PID_TO_WATCH := by
        obtain ⟨q, hq, hqt⟩ := hex
        rcases List.mem_cons.mp hq with rfl | hq2
        · exact absurd hqt ht
        · exact ⟨q, hq2, hqt⟩
      obtain ⟨r, hr, hhit⟩ := ih (o + TS_PACKET_SIZE) fuel
        (by
          intro k hk
          have := hbuf (188 + k) (by omega)
          rw [List.flatten_cons, List.getD_eq_getElem?_getD,
            List.getElem?_append_right (by omega)] at this
          have e : 188 + k - p.length = k := by omega
          rw [e, ← List.getD_eq_getElem?_getD] at this
          rw [← this]
          unfold TS_PACKET_SIZE
          congr 1
          omega)
        (by unfold TS_PACKET_SIZE; omega)
        (fun q hq => hpk q (List.mem_cons_of_mem _ hq)) hex2
        (by simp at hfuel; omega)
      refine ⟨{ r with visited := o :: r.visited }, ?_, hhit⟩
      rw [scanLoop_packet buffer buf_len fuel o hb (by omega) hsync (by rw [hpid]; exact ht), hr]
      rfl

/-- The scan finds a watched packet that lies on its framing: after bytes that are
not the sync byte, among back-to-back synced packets. -/
theorem scan_finds_framed (b : StreamBuffer) (hcap : b.buf_len ≤ BUFFER_SIZE)
    (garbage tail : List Byte) (pkts : List (List Byte))
    (hcontent : b.content = garbage ++ pkts.flatten ++ tail)
    (hg : ∀ x ∈ garbage, x ≠ 0x47) (hpk : ∀ p ∈ pkts, IsPacket p)
    (hex : ∃ p ∈ pkts, pidOf p = PID_TO_WATCH) :
    ∃ r, scan b false = some r ∧ r.hit_found = true := by
  have hb : b.buf_len < SIZE_MODULUS := lt_of_le_of_lt hcap buffer_size_lt
  have hfl := packets_flatten_length pkts hpk
  have hlen : b.buf_len = garbage.length + pkts.flatten.length + tail.length := by
    rw [← content_length, hcontent, List.length_append, List.length_append]
  have hpos : 1 ≤ pkts.length := by
    obtain ⟨p, hp, _⟩ := hex
    exact List.length_pos_of_mem hp
  have hgar : ∀ k, 0 ≤ k → k < 0 + garbage.length → b.buffer k ≠ 0x47 := by
    intro k _ hk
    have hk2 : k < garbage.length := by omega
    rw [content_getD b _ hcontent k (by rw [← hcontent, content_length]; omega) 0, List.append_assoc,
      List.getD_eq_getElem?_getD, List.getElem?_append_left hk2, List.getElem?_eq_getElem hk2]
    exact hg _ (List.getElem_mem hk2)
  have hpk2 : ∀ k, k < pkts.flatten.length →
      b.buffer (garbage.length + k) = pkts.flatten.getD k 0 := by
    intro k hk
    rw [content_getD b _ hcontent _ (by rw [← hcontent, content_length]; omega) 0, List.append_assoc,
      List.getD_eq_getElem?_getD, List.getD_eq_getElem?_getD,
      List.getElem?_append_right (by omega), List.getElem?_append_left (by omega)]
    congr 2
    omega
  obtain ⟨r, hr, hhit⟩ := scanLoop_packets b.buffer b.buf_len hb pkts garbage.length
    (b.buf_len + 1 - garbage.length) hpk2 (by omega) hpk hex (by omega)
  refine ⟨{ r with visited := List.range' 0 garbage.length ++ r.visited }, ?_, hhit⟩
  unfold scan
  have e : b.buf_len + 1 = garbage.length + (b.buf_len + 1 - garbage.length) := by omega
  rw [e, scanLoop_garbage_run b.buffer b.buf_len hb garbage.length 0 _ hgar (by omega),
    Nat.zero_add, hr]
  rfl

/-- The wait loop up to and including the pass in which the scan finds a match: the
test at the head of the loop then fails. -/
theorem waitLoop_reach_hit (pre post : List IterInput) (it : IterInput) (st : MainState)
    (tr : TrialVars) (l : LoopResult) (r : BodyResult)
    (hpre : waitLoop pre st tr = some l) (hrun : l.left = false)
    (hk : (deliver it.sigint l.st).keep_running = true)
    (hbody : waitBody it l.st l.tr = some r) (hbrk : r.brk = false)
    (hhit : r.tr.hit_found = true) :
    waitLoop (pre ++ it :: post) st tr
      = some { st := r.st, tr := r.tr, left := true, out := l.out ++ r.out, rest := post } := by
  obtain ⟨f1, f2, _, _⟩ := waitLoop_running_flags pre st tr l hpre hrun
  have hd := deliver_of_running it.sigint l.st hk
  rw [waitLoop_append pre st tr l hpre hrun,
    waitLoop_continue it post l.st l.tr r (by simp [f1, f2]) hk (by rw [hd]; exact hbody)
      (by simp [hbrk]),
    waitLoop_done post r.st r.tr (by simp [hhit])]
  simp

theorem resolve_reported (sigint_end : Bool) (l : LoopResult)
    (h : (deliver sigint_end l.st).keep_running = true) :
    resolve sigint_end l
      = { st := deliver sigint_end l.st, tr := l.tr, ending := TrialEnd.reported,
          rest := l.rest,
          out := [Event.gpioWrite true] ++ l.out ++ [Event.gpioWrite false]
                   ++ report l.st.measurement_index l.tr ++ [Event.sleep 1] } := by
  unfold resolve
  rw [if_pos h]

theorem report_hit (index : Nat) (tr : TrialVars) (h : tr.hit_found = true) :
    report index tr
      = [Event.reportHit index tr.arm_time tr.hit_time
          (timespec_diff_sec tr.arm_time tr.hit_time)] := by
  unfold report
  rw [if_pos h]

theorem report_timeout (index : Nat) (tr : TrialVars) (h : tr.hit_found = false)
    (h2 : tr.timed_out = true) : report index tr = [Event.reportTimeout index] := by
  unfold report
  rw [if_neg (by simp [h]), if_pos h2]

theorem mem_report (index : Nat) (tr : TrialVars) (e : Event) (h : e ∈ report index tr) :
    (e.isHit = true → tr.hit_found = true) ∧ (e.isTimeout = true → tr.hit_found = false) := by
  unfold report at h
  split at h
  · rename_i hf
    simp only [List.mem_singleton] at h
    subst h
    exact ⟨fun _ => hf, fun h2 => by simp [Event.isTimeout] at h2⟩
  · rename_i hf
    split at h
    · simp only [List.mem_singleton] at h
      subst h
      exact ⟨fun h2 => by simp [Event.isHit] at h2, fun _ => by simpa using hf⟩
    · cases h

theorem diag_not_report (e : Event)
    (h : e = Event.perrorSelect ∨ e = Event.perrorRead ∨ e = Event.eofNotice) :
    e.isHit = false ∧ e.isTimeout = false := by
  rcases h with rfl | rfl | rfl <;> exact ⟨rfl, rfl⟩

/-- The events of a trial: the rising edge, the diagnostics of the wait loop and,
once the loop is left, the falling edge and at most one report. -/
theorem trial_out (inp : TrialInput) (tape : List IterInput) (st : MainState) (t : TrialResult)
    (h : trial inp tape st = some t) :
    ∃ l, waitLoop tape (nextIndex st) (armVars inp.arm_clock) = some l
      ∧ (t.out = [Event.gpioWrite true] ++ l.out
        ∨ t.out = [Event.gpioWrite true] ++ l.out ++ [Event.gpioWrite false]
        ∨ t.out = [Event.gpioWrite true] ++ l.out ++ [Event.gpioWrite false]
                    ++ report l.st.measurement_index l.tr ++ [Event.sleep 1]) := by
  cases hl : waitLoop tape (nextIndex st) (armVars inp.arm_clock) with
  | none =>
    rw [trial] at h
    simp only [hl] at h
    cases h
  | some l =>
    refine ⟨l, rfl, ?_⟩
    by_cases hleft : l.left = true
    · rw [trial_left inp tape st l hl hleft] at h
      cases h
      by_cases hk : (deliver inp.sigint_end l.st).keep_running = true
      · rw [resolve_reported _ _ hk]; exact Or.inr (Or.inr rfl)
      · rw [resolve_stopped _ _ (by simpa using hk)]; exact Or.inr (Or.inl rfl)
    · rw [trial_blocked inp tape st l hl hleft] at h
      cases h
      exact Or.inl rfl

/-- No trial is reported both as a hit and as a timeout. -/
theorem trial_single_report (inp : TrialInput) (tape : List IterInput) (st : MainState)
    (t : TrialResult) (h : trial inp tape st = some t) :
    ¬ ((∃ e ∈ t.out, e.isHit = true) ∧ (∃ e ∈ t.out, e.isTimeout = true)) := by
  obtain ⟨l, hl, hout⟩ := trial_out inp tape st t h
  have hd := waitLoop_out tape _ _ l hl
  rintro ⟨⟨e1, m1, h1⟩, ⟨e2, m2, h2⟩⟩
  have key : ∀ e ∈ t.out, (e.isHit = true ∨ e.isTimeout = true) →
      e ∈ report l.st.measurement_index l.tr := by
    intro e he hrep
    rcases hout with ho | ho | ho <;> rw [ho] at he <;>
      simp only [List.mem_append, List.mem_singleton] at he
    · rcases he with rfl | he
      · simp [Event.isHit, Event.isTimeout] at hrep
      · have := diag_not_report e (hd e he); simp [this] at hrep
    · rcases he with (rfl | he) | rfl
      · simp [Event.isHit, Event.isTimeout] at hrep
      · have := diag_not_report e (hd e he); simp [this] at hrep
      · simp [Event.isHit, Event.isTimeout] at hrep
    · rcases he with (((rfl | he) | rfl) | he) | rfl
      · simp [Event.isHit, Event.isTimeout] at hrep
      · have := diag_not_report e (hd e he); simp [this] at hrep
      · simp [Event.isHit, Event.isTimeout] at hrep
      · exact he
      · simp [Event.isHit, Event.isTimeout] at hrep
  have a1 := (mem_report _ _ e1 (key e1 m1 (Or.inl h1))).1 h1
  have a2 := (mem_report _ _ e2 (key e2 m2 (Or.inr h2))).2 h2
  rw [a1] at a2
  cases a2

/-- Two trials that contradict claim C7 as it is worded. In the first the bounded wait
returns with no readiness and no match was found, yet SIGINT arrives before the
test of line 183: nothing is reported, the trial is aborted, not timed out. In the
second a read leaves a complete packet with first byte 0x47 and identifier 0x0404 in
the buffer, at offset 3, off the framing of the scan: no hit is found, and when the
wait then returns with no readiness the trial is reported as a timeout. -/
theorem timeout_boundary_counterexample :
    (trial (trialAt ⟨0, 0⟩ true) [selectTimeoutInput ⟨1, 0⟩] (initialState fun _ => 0)).map
        (fun t => (t.ending, t.out))
      = some (TrialEnd.stopped, [Event.gpioWrite true, Event.gpioWrite false])
    ∧ (afterRead (initialState fun _ => 0).toStreamBuffer misframedBytes).content
        = [0x47, 0, 1] ++ samplePacket 4 4
    ∧ IsPacket (samplePacket 4 4)
    ∧ pidOf (samplePacket 4 4) = PID_TO_WATCH
    ∧ (trial (trialAt ⟨0, 0⟩ false)
          [readInput ⟨1, 0⟩ misframedBytes, selectTimeoutInput ⟨2, 0⟩]
          (initialState fun _ => 0)).map (fun t => (t.ending, t.out))
        = some (TrialEnd.reported,
            [Event.gpioWrite true, Event.gpioWrite false, Event.reportTimeout 1,
             Event.sleep 1]) := by
  decide!

theorem nextIndex_buf (st : MainState) : (nextIndex st).toStreamBuffer = st.toStreamBuffer := rfl

/-- The stream buffer stays within its capacity through the passes of a wait loop. -/
theorem waitLoop_buf_len (tape : List IterInput) (st : MainState) (tr : TrialVars)
    (l : LoopResult) (hcap : st.buf_len ≤ BUFFER_SIZE) (h : waitLoop tape st tr = some l) :
    l.st.buf_len ≤ BUFFER_SIZE := by
  obtain ⟨l2, h2, h3⟩ := waitLoop_inv tape st tr hcap
  rw [h] at h2
  cases h2
  exact h3

/-- Claim C7 as amended (timeout boundary, time taken as exact values). Take any
trial whose wait loop is still running after the passes `pre`, whose next pass `it`
is entered, and in which no SIGINT is delivered before the test of line 183. Then
(1) if at the head of the pass the elapsed time since the arm is at least the timeout
(`remaining <= 0`), or the bounded wait returns with no readiness, the trial is
reported as a timeout and not as a hit; (2) if the elapsed time at the head of the
pass is below the timeout and the `read` of the pass returns bytes and leaves in the
buffer bytes none of which is 0x47, followed by back-to-back complete synced packets
of which one carries the watched identifier (whatever follows them), the trial is
reported as a hit, with the arm time of the trial and the clock reading taken at the
match, and not as a timeout; (3) no trial at all has both a hit and a timeout among
its events. -/
theorem timeout_boundary (inp : TrialInput) (pre post : List IterInput) (it : IterInput)
    (st : MainState) (l : LoopResult)
    (hcap : st.buf_len ≤ BUFFER_SIZE)
    (hpre : waitLoop pre (nextIndex st) (armVars inp.arm_clock) = some l)
    (hrun : l.left = false)
    (hk : (deliver it.sigint l.st).keep_running = true)
    (hsig : inp.sigint_end = false) :
    ((TIMEOUT_SEC - timespec_diff_sec inp.arm_clock it.now ≤ 0
        ∨ it.select = SelectResult.timeout) →
      ∃ t, trial inp (pre ++ it :: post) st = some t
        ∧ t.ending = TrialEnd.reported
        ∧ Event.reportTimeout (nextIndex st).measurement_index ∈ t.out
        ∧ ∀ e ∈ t.out, e.isHit = false)
    ∧ (¬ TIMEOUT_SEC - timespec_diff_sec inp.arm_clock it.now ≤ 0 →
        it.select = SelectResult.ready →
        ∀ (avail garbage tail : List Byte) (pkts : List (List Byte)),
          it.read = ReadResult.bytes avail →
          (readData l.st.toStreamBuffer avail).length ≠ 0 →
          (afterRead l.st.toStreamBuffer avail).content = garbage ++ pkts.flatten ++ tail →
          (∀ x ∈ garbage, x ≠ 0x47) → (∀ p ∈ pkts, IsPacket p) →
          (∃ p ∈ pkts, pidOf p = PID_TO_WATCH) →
            ∃ t, trial inp (pre ++ it :: post) st = some t
              ∧ t.ending = TrialEnd.reported
              ∧ Event.reportHit (nextIndex st).measurement_index inp.arm_clock it.hit_clock
                  (timespec_diff_sec inp.arm_clock it.hit_clock) ∈ t.out
              ∧ ∀ e ∈ t.out, e.isTimeout = false)
    ∧ (∀ (inp2 : TrialInput) (tape : List IterInput) (st2 : MainState) (t : TrialResult),
        trial inp2 tape st2 = some t →
          ¬ ((∃ e ∈ t.out, e.isHit = true) ∧ (∃ e ∈ t.out, e.isTimeout = true))) := by
  obtain ⟨f1, f2, f3, f4⟩ := waitLoop_running_flags pre _ _ l hpre hrun
  have harm : l.tr.arm_time = inp.arm_clock := f3
  have hd := deliver_of_running it.sigint l.st hk
  have hkr : l.st.keep_running = true := by rw [← hd]; exact hk
  have hdiag := waitLoop_out pre _ _ l hpre
  have hend : ∀ s : MainState, s.keep_running = true →
      (deliver inp.sigint_end s).keep_running = true := by
    intro s hs; rw [hsig]; exact hs
  refine ⟨?_, ?_, trial_single_report⟩
  · intro hto
    have hbody : waitBody it l.st l.tr
        = some { st := l.st, tr := { l.tr with timed_out := true }, brk := true, out := [] } := by
      by_cases hrem : TIMEOUT_SEC - timespec_diff_sec l.tr.arm_time it.now ≤ 0
      · exact waitBody_deadline it l.st l.tr hrem
      · rcases hto with h1 | h1
        · rw [harm] at hrem; exact absurd h1 hrem
        · exact waitBody_select_timeout it l.st l.tr hrem h1
    have hloop : waitLoop (pre ++ it :: post) (nextIndex st) (armVars inp.arm_clock)
        = some { st := l.st, tr := { l.tr with timed_out := true }, left := true,
                 out := l.out ++ [], rest := post } :=
      waitLoop_reach_break pre post it _ _ l _ hpre hrun hk hbody rfl
    have htrial := trial_left inp (pre ++ it :: post) st _ hloop rfl
    rw [resolve_reported inp.sigint_end
      { st := l.st, tr := { l.tr with timed_out := true }, left := true,
        out := l.out ++ [], rest := post } (hend _ hkr),
      report_timeout _ { l.tr with timed_out := true } f1 rfl] at htrial
    refine ⟨_, htrial, rfl, ?_, ?_⟩
    · simp only [List.mem_append, List.mem_singleton]
      exact Or.inl (Or.inr (by rw [f4]))
    · intro e he
      simp only [List.mem_append, List.mem_singleton, List.append_nil] at he
      rcases he with (((rfl | he) | rfl) | rfl) | rfl
      · rfl
      · exact (diag_not_report e (hdiag e he)).1
      · rfl
      · rfl
      · rfl
  · intro hrem hsel avail garbage tail pkts hread hlen hcontent hg hpk hex
    have hcapl : l.st.buf_len ≤ BUFFER_SIZE := waitLoop_buf_len pre (nextIndex st) _ l hcap hpre
    have hb2 := (afterRead_buf_len l.st.toStreamBuffer hcapl avail).2.2
    obtain ⟨r, hscan, hhit⟩ := scan_finds_framed _ hb2 garbage tail pkts hcontent hg hpk hex
    have hbody := waitBody_data it l.st l.tr avail r (by rw [harm]; exact hrem) hsel hread hlen
      (by rw [f1]; exact hscan)
    have hrec : recordHit it.hit_clock r.hit_found l.tr
        = { l.tr with hit_time := it.hit_clock, hit_found := true } := by
      unfold recordHit; rw [if_pos hhit]
    rw [hrec] at hbody
    have hloop : waitLoop (pre ++ it :: post) (nextIndex st) (armVars inp.arm_clock)
        = some { st := { l.st with toStreamBuffer := compact (afterRead l.st.toStreamBuffer avail) r.i },
                 tr := { l.tr with hit_time := it.hit_clock, hit_found := true }, left := true,
                 out := l.out ++ [], rest := post } :=
      waitLoop_reach_hit pre post it _ _ l _ hpre hrun hk hbody rfl rfl
    have htrial := trial_left inp (pre ++ it :: post) st _ hloop rfl
    rw [resolve_reported inp.sigint_end
      { st := { l.st with toStreamBuffer := compact (afterRead l.st.toStreamBuffer avail) r.i },
        tr := { l.tr with hit_time := it.hit_clock, hit_found := true }, left := true,
        out := l.out ++ [], rest := post } (hend _ hkr),
      report_hit _ { l.tr with hit_time := it.hit_clock, hit_found := true } rfl] at htrial
    refine ⟨_, htrial, rfl, ?_, ?_⟩
    · simp only [List.mem_append, List.mem_singleton]
      refine Or.inl (Or.inr ?_)
      show Event.reportHit _ _ _ _ = Event.reportHit _ l.tr.arm_time _
        (timespec_diff_sec l.tr.arm_time _)
      rw [harm, ← f4]
    · intro e he
      simp only [List.mem_append, List.mem_singleton, List.append_nil] at he
      rcases he with (((rfl | he) | rfl) | rfl) | rfl
      · rfl
      · exact (diag_not_report e (hdiag e he)).2
      · rfl
      · rfl
      · rfl

/-- A first trial that times out in `select`, and a first trial whose first read is
the watched packet. -/
theorem timeout_boundary_witness :
    (∃ t, trial (trialAt ⟨0, 0⟩ false) ([] ++ selectTimeoutInput ⟨1, 0⟩ :: [])
            (initialState fun _ => 0) = some t
        ∧ t.ending = TrialEnd.reported
        ∧ Event.reportTimeout (nextIndex (initialState fun _ => 0)).measurement_index ∈ t.out)
    ∧ (∃ t, trial (trialAt ⟨0, 0⟩ false) ([] ++ readInput ⟨1, 0⟩ (samplePacket 4 4) :: [])
            (initialState fun _ => 0) = some t
        ∧ t.ending = TrialEnd.reported
        ∧ Event.reportHit (nextIndex (initialState fun _ => 0)).measurement_index ⟨0, 0⟩ ⟨1, 0⟩
            (timespec_diff_sec ⟨0, 0⟩ ⟨1, 0⟩) ∈ t.out) := by
  have hl : waitLoop [] (nextIndex (initialState fun _ => 0)) (armVars ⟨0, 0⟩)
      = some { st := nextIndex (initialState fun _ => 0), tr := armVars ⟨0, 0⟩, left := false,
               out := [], rest := [] } := waitLoop_nil _ _ (by decide)
  have hrem : ¬ TIMEOUT_SEC - timespec_diff_sec ⟨0, 0⟩ ⟨1, 0⟩ ≤ 0 := by
    rw [remaining_le_zero_iff ⟨0, 0⟩ ⟨1, 0⟩ (by decide) (by decide) (by decide) (by decide)]
    decide
  have hlen : (readData (nextIndex (initialState fun _ => 0)).toStreamBuffer
      (samplePacket 4 4)).length ≠ 0 := by decide!
  have hcontent : (afterRead (nextIndex (initialState fun _ => 0)).toStreamBuffer
      (samplePacket 4 4)).content = [] ++ [samplePacket 4 4].flatten ++ [] := by decide!
  have hpk : ∀ p ∈ [samplePacket 4 4], IsPacket p := by decide
  have hex : ∃ p ∈ [samplePacket 4 4], pidOf p = PID_TO_WATCH := by decide
  have hg : ∀ x ∈ ([] : List Byte), x ≠ 0x47 := by decide
  have a := (timeout_boundary (trialAt ⟨0, 0⟩ false) [] [] (selectTimeoutInput ⟨1, 0⟩)
    (initialState fun _ => 0) _ (Nat.zero_le _) hl rfl rfl rfl).1 (Or.inr rfl)
  have b := (timeout_boundary (trialAt ⟨0, 0⟩ false) [] [] (readInput ⟨1, 0⟩ (samplePacket 4 4))
    (initialState fun _ => 0) _ (Nat.zero_le _) hl rfl rfl rfl).2.1 hrem rfl
    (samplePacket 4 4) [] [] [samplePacket 4 4] rfl hlen hcontent hg hpk hex
  obtain ⟨t, a1, a2, a3, _⟩ := a
  obtain ⟨u, b1, b2, b3, _⟩ := b
  exact ⟨⟨t, a1, a2, a3⟩, ⟨u, b1, b2, b3⟩⟩

/-- Why a packet is found more than once: the scan loop leaves its cursor on the
first byte of the packet it matched, so compaction keeps that packet at the front of
the buffer, where the scan of the next trial starts. -/
theorem hit_keeps_packet (b : StreamBuffer) (hcap : b.buf_len ≤ BUFFER_SIZE) (r : ScanResult)
    (hscan : scan b false = some r) (hhit : r.hit_found = true) :
    TS_PACKET_SIZE ≤ (compact b r.i).buf_len
    ∧ (compact b r.i).buffer 0 = 0x47
    ∧ get_pid (compact b r.i).buffer = PID_TO_WATCH := by
  obtain ⟨r2, hr2, h1, _, _, h4⟩ := scan_spec b hcap
  rw [hscan] at hr2
  cases hr2
  obtain ⟨g1, g2, g3⟩ := h4 hhit
  obtain ⟨c1, c2⟩ := compact_spec b r.i h1 (lt_of_le_of_lt hcap buffer_size_lt)
  have hget : ∀ k, k < b.buf_len - r.i → (compact b r.i).buffer k = b.buffer (r.i + k) := by
    intro k hk
    have hlen : (b.content.drop r.i).length = b.buf_len - r.i := by
      rw [List.length_drop, content_length]
    rw [content_getD _ _ c2 k (by omega) 0, List.getD_eq_getElem?_getD, List.getElem?_drop,
      ← List.getD_eq_getElem?_getD,
      ← content_getD b _ rfl (r.i + k) (by rw [content_length]; omega)]
  unfold TS_PACKET_SIZE at g1 ⊢
  refine ⟨by omega, ?_, ?_⟩
  · rw [hget 0 (by omega)]; exact g2
  · rw [← g3]
    exact get_pid_congr _ _ (hget 1 (by omega)) (hget 2 (by omega))

/-- Claim C1 fails on the code. Scenario A (50 packets 0x0001, one packet 0x0404, 10
packets 0x0001, all complete and synced, exactly one of them with the watched
identifier) is delivered one packet per `read`, followed by the end of the stream,
with no timeout and no SIGINT. Twelve trials are armed; eleven of them report a hit,
the twelfth is aborted by the end of the stream, and `main` returns 0 having printed
eleven hit reports. The packet 0x0404 is found by the first trial and found again by
each of the ten trials that follow. -/
theorem scenarioA_redetects :
    (∀ p ∈ scenarioA, IsPacket p)
    ∧ (scenarioA.filter fun p => pidOf p = PID_TO_WATCH).length = 1
    ∧ (trialLoop (List.replicate 12 (trialAt ⟨0, 0⟩ false)) scenarioATape
          (initialState fun _ => 0)).map (fun r => (hitCount r.trials, r.trials.length, r.left))
        = some (11, 12, true)
    ∧ (main true (fun _ => 0) (List.replicate 12 (trialAt ⟨0, 0⟩ false)) scenarioATape).map
          (fun r => ((r.1.filter Event.isHit).length, r.2))
        = some (11, some 0) := by
  decide!

end Pid404Rx

theorem writeAt_zero_get (mem : Mem) (data : List Byte) (k : Nat) (hk : k < data.length) :
    writeAt mem 0 data k = data.getD k 0 := by
  unfold writeAt
  rw [if_pos ⟨Nat.zero_le _, by omega⟩, Nat.sub_zero, List.getD_eq_getElem?_getD,
    List.getD_eq_getElem?_getD, List.getElem?_eq_getElem hk]
  rfl

namespace Pid404ArmRx

theorem hitGuard_iff (pid : Nat) (s : Shared) :
    hitGuard pid s = true
      ↔ (s.keep_running = true ∧ s.measurement_active = true ∧ s.hit_ready = false
          ∧ pid = PID_TO_WATCH) := by
  unfold hitGuard
  simp only [Bool.and_eq_true, Bool.not_eq_true', beq_iff_eq]
  tauto

theorem locked_step_hit (pid : Nat) (clock : Timespec) (s : Shared) (h : hitGuard pid s = true) :
    reader_locked_step pid clock s
      = { s with hit_time := clock, hit_ready := true, measurement_active := false } := by
  unfold reader_locked_step
  rw [if_pos h]

theorem locked_step_skip (pid : Nat) (clock : Timespec) (s : Shared)
    (h : hitGuard pid s = false) : reader_locked_step pid clock s = s := by
  unfold reader_locked_step
  rw [if_neg (by simp [h])]

theorem deliver_running (sigint : Bool) (s : Shared) (h : (deliver sigint s).keep_running = true) :
    deliver sigint s = s := by
  cases sigint with
  | false => rfl
  | true => simp [deliver, intHandler] at h

theorem deliver_record (sigint : Bool) (s : Shared) : (deliver sigint s).record = s.record := by
  cases sigint <;> rfl

theorem deliver_stays_stopped (sigint : Bool) (s : Shared) (h : s.keep_running = false) :
    (deliver sigint s).keep_running = false := by
  cases sigint with
  | false => exact h
  | true => rfl

theorem readerLoop_stop (inp : ReaderInput) (rest : List ReaderInput) (buf : Mem) (s : Shared)
    (h : ¬ (deliver inp.sigint_head s).keep_running = true) :
    readerLoop (inp :: rest) buf s = readerExit (deliver inp.sigint_head s) buf [] := by
  rw [readerLoop, if_neg h]

theorem readerLoop_error (inp : ReaderInput) (rest : List ReaderInput) (buf : Mem) (s : Shared)
    (h : (deliver inp.sigint_head s).keep_running = true) (hr : inp.read = ReadResult.error) :
    readerLoop (inp :: rest) buf s
      = readerExit (deliver inp.sigint_head s) buf [ReaderEvent.perrorRead] := by
  rw [readerLoop, if_pos h]
  simp only [hr]

theorem readerLoop_eof (inp : ReaderInput) (rest : List ReaderInput) (buf : Mem) (s : Shared)
    (avail : List Byte)
    (h : (deliver inp.sigint_head s).keep_running = true)
    (hr : inp.read = ReadResult.bytes avail) (h0 : (avail.take TS_PACKET_SIZE).length = 0) :
    readerLoop (inp :: rest) buf s
      = readerExit (deliver inp.sigint_head s) buf [ReaderEvent.eofNotice] := by
  rw [readerLoop, if_pos h]
  simp only [hr]
  rw [if_pos h0]

theorem readerLoop_short (inp : ReaderInput) (rest : List ReaderInput) (buf : Mem) (s : Shared)
    (avail : List Byte)
    (h : (deliver inp.sigint_head s).keep_running = true)
    (hr : inp.read = ReadResult.bytes avail) (h0 : ¬ (avail.take TS_PACKET_SIZE).length = 0)
    (h1 : (avail.take TS_PACKET_SIZE).length ≠ TS_PACKET_SIZE) :
    readerLoop (inp :: rest) buf s
      = readerLoop rest (writeAt buf 0 (avail.take TS_PACKET_SIZE))
          (deliver inp.sigint_head s) := by
  rw [readerLoop, if_pos h]
  simp only [hr]
  rw [if_neg h0, if_pos h1]

theorem readerLoop_unsynced (inp : ReaderInput) (rest : List ReaderInput) (buf : Mem)
    (s : Shared) (avail : List Byte)
    (h : (deliver inp.sigint_head s).keep_running = true)
    (hr : inp.read = ReadResult.bytes avail) (h0 : ¬ (avail.take TS_PACKET_SIZE).length = 0)
    (h1 : ¬ (avail.take TS_PACKET_SIZE).length ≠ TS_PACKET_SIZE)
    (h2 : writeAt buf 0 (avail.take TS_PACKET_SIZE) 0 ≠ 0x47) :
    readerLoop (inp :: rest) buf s
      = readerLoop rest (writeAt buf 0 (avail.take TS_PACKET_SIZE))
          (deliver inp.sigint_head s) := by
  rw [readerLoop, if_pos h]
  simp only [hr]
  rw [if_neg h0, if_neg h1, if_pos h2]

theorem readerLoop_packet (inp : ReaderInput) (rest : List ReaderInput) (buf : Mem)
    (s : Shared) (avail : List Byte)
    (h : (deliver inp.sigint_head s).keep_running = true)
    (hr : inp.read = ReadResult.bytes avail) (h0 : ¬ (avail.take TS_PACKET_SIZE).length = 0)
    (h1 : ¬ (avail.take TS_PACKET_SIZE).length ≠ TS_PACKET_SIZE)
    (h2 : ¬ writeAt buf 0 (avail.take TS_PACKET_SIZE) 0 ≠ 0x47) :
    readerLoop (inp :: rest) buf s
      = lockedPass inp (writeAt buf 0 (avail.take TS_PACKET_SIZE)) (deliver inp.sigint_head s)
          (readerLoop rest (writeAt buf 0 (avail.take TS_PACKET_SIZE))
            (reader_locked_step (get_pid (writeAt buf 0 (avail.take TS_PACKET_SIZE))) inp.clock
              (deliver inp.sigint_lock (deliver inp.sigint_head s)))) := by
  rw [readerLoop, if_pos h]
  simp only [hr]
  rw [if_neg h0, if_neg h1, if_neg h2]

/-- The three ways a pass of the reader loop can go: the loop is left, the read is
discarded, or a complete synced packet reaches the block under the lock. -/
theorem readerLoop_cases (inp : ReaderInput) (rest : List ReaderInput) (buf : Mem) (s : Shared) :
    (∃ out, readerLoop (inp :: rest) buf s = readerExit (deliver inp.sigint_head s) buf out
        ∧ ReaderEvent.condSignal ∉ out)
    ∨ (∃ buf2, (deliver inp.sigint_head s).keep_running = true ∧ isPacketRead inp = false
        ∧ readerLoop (inp :: rest) buf s = readerLoop rest buf2 (deliver inp.sigint_head s))
    ∨ (∃ buf2, (deliver inp.sigint_head s).keep_running = true ∧ isPacketRead inp = true
        ∧ get_pid buf2 = readPid inp
        ∧ readerLoop (inp :: rest) buf s
            = lockedPass inp buf2 (deliver inp.sigint_head s)
                (readerLoop rest buf2 (reader_locked_step (get_pid buf2) inp.clock
                  (deliver inp.sigint_lock (deliver inp.sigint_head s))))) := by
  by_cases h : (deliver inp.sigint_head s).keep_running = true
  · cases hr : inp.read with
    | error => exact Or.inl ⟨_, readerLoop_error inp rest buf s h hr, by simp⟩
    | bytes avail =>
      by_cases h0 : (avail.take TS_PACKET_SIZE).length = 0
      · exact Or.inl ⟨_, readerLoop_eof inp rest buf s avail h hr h0, by simp⟩
      · by_cases h1 : (avail.take TS_PACKET_SIZE).length ≠ TS_PACKET_SIZE
        · refine Or.inr (Or.inl ⟨_, h, ?_, readerLoop_short inp rest buf s avail h hr h0 h1⟩)
          unfold isPacketRead
          simp only [hr]
          exact decide_eq_false (fun hp => h1 hp.1)
        · have hlen : (avail.take TS_PACKET_SIZE).length = 188 := by
            simpa [TS_PACKET_SIZE] using h1
          have hget : ∀ k, k < 188 →
              writeAt buf 0 (avail.take TS_PACKET_SIZE) k = (avail.take TS_PACKET_SIZE).getD k 0 :=
            fun k hk => writeAt_zero_get buf _ k (by omega)
          by_cases h2 : writeAt buf 0 (avail.take TS_PACKET_SIZE) 0 ≠ 0x47
          · refine Or.inr (Or.inl ⟨_, h, ?_,
              readerLoop_unsynced inp rest buf s avail h hr h0 h1 h2⟩)
            unfold isPacketRead
            simp only [hr]
            rw [hget 0 (by omega)] at h2
            exact decide_eq_false (fun hp => h2 hp.2)
          · refine Or.inr (Or.inr ⟨_, h, ?_, ?_,
              readerLoop_packet inp rest buf s avail h hr h0 h1 h2⟩)
            · unfold isPacketRead
              simp only [hr]
              rw [hget 0 (by omega)] at h2
              exact decide_eq_true ⟨not_not.mp h1, not_not.mp h2⟩
            · unfold readPid get_pid
              simp only [hr]
              rw [hget 1 (by omega), hget 2 (by omega)]
  · exact Or.inl ⟨_, readerLoop_stop inp rest buf s h, by simp⟩

theorem readerExit_record (s : Shared) (buf : Mem) (out : List ReaderEvent) :
    (readerExit s buf out).s.record = s.record
    ∧ (readerExit s buf out).out = out ++ [ReaderEvent.condBroadcast] :=
  ⟨rfl, rfl⟩

/-- While no measurement is active, or once `keep_running` is cleared, the reader
records nothing: the shared record is left as it is and no hit is signalled. -/
theorem readerLoop_idle : ∀ (inputs : List ReaderInput) (buf : Mem) (s : Shared),
    (s.measurement_active = false ∨ s.keep_running = false) →
      (readerLoop inputs buf s).s.record = s.record
      ∧ ReaderEvent.condSignal ∉ (readerLoop inputs buf s).out := by
  intro inputs
  induction inputs with
  | nil => intro buf s _; exact ⟨rfl, by simp [readerLoop]⟩
  | cons inp rest ih =>
    intro buf s hidle
    have hidle1 : (deliver inp.sigint_head s).measurement_active = false
        ∨ (deliver inp.sigint_head s).keep_running = false := by
      rcases hidle with h | h
      · left
        have := deliver_record inp.sigint_head s
        unfold Shared.record at this
        simp only [Prod.mk.injEq] at this
        rw [this.1]; exact h
      · right; exact deliver_stays_stopped _ _ h
    rcases readerLoop_cases inp rest buf s with ⟨out, he, hout⟩ | ⟨buf2, _, _, he⟩
      | ⟨buf2, _, _, _, he⟩
    · rw [he]
      refine ⟨by rw [(readerExit_record _ _ _).1, deliver_record], ?_⟩
      rw [(readerExit_record _ _ _).2]
      simp [hout]
    · rw [he]
      obtain ⟨i1, i2⟩ := ih buf2 _ hidle1
      exact ⟨by rw [i1, deliver_record], i2⟩
    · have hidle2 : (deliver inp.sigint_lock (deliver inp.sigint_head s)).measurement_active = false
          ∨ (deliver inp.sigint_lock (deliver inp.sigint_head s)).keep_running = false := by
        rcases hidle1 with h | h
        · left
          have := deliver_record inp.sigint_lock (deliver inp.sigint_head s)
          unfold Shared.record at this
          simp only [Prod.mk.injEq] at this
          rw [this.1]; exact h
        · right; exact deliver_stays_stopped _ _ h
      have hg : hitGuard (get_pid buf2)
          (deliver inp.sigint_lock (deliver inp.sigint_head s)) = false := by
        cases hgv : hitGuard (get_pid buf2)
            (deliver inp.sigint_lock (deliver inp.sigint_head s)) with
        | false => rfl
        | true =>
          obtain ⟨g1, g2, _, _⟩ := (hitGuard_iff _ _).mp hgv
          rcases hidle2 with h | h
          · rw [h] at g2; cases g2
          · rw [h] at g1; cases g1
      rw [he, locked_step_skip _ _ _ hg]
      unfold lockedPass
      rw [if_neg (by simp [hg])]
      obtain ⟨i1, i2⟩ := ih buf2 _ hidle2
      exact ⟨by rw [i1, deliver_record, deliver_record], i2⟩

theorem record_eq (a b : Shared) (h : a.record = b.record) :
    a.measurement_active = b.measurement_active ∧ a.hit_ready = b.hit_ready
    ∧ a.arm_time = b.arm_time ∧ a.hit_time = b.hit_time := by
  unfold Shared.record at h
  simp only [Prod.mk.injEq] at h
  exact h

theorem count_signal_zero (out : List ReaderEvent) (h : ReaderEvent.condSignal ∉ out) :
    out.count ReaderEvent.condSignal = 0 :=
  List.count_eq_zero.mpr h

/-- After an arm, and until the next one, the reader records at most one hit, and
the hit it records is the first complete synced packet with the watched identifier. -/
theorem readerLoop_armed : ∀ (inputs : List ReaderInput) (buf : Mem) (s : Shared),
    s.measurement_active = true → s.hit_ready = false →
      (readerLoop inputs buf s).out.count ReaderEvent.condSignal ≤ 1
      ∧ ((readerLoop inputs buf s).s.hit_ready = true →
          ∃ inp, inputs.find? isTargetRead = some inp
            ∧ (readerLoop inputs buf s).s.hit_time = inp.clock
            ∧ (readerLoop inputs buf s).out.count ReaderEvent.condSignal = 1
            ∧ (readerLoop inputs buf s).s.measurement_active = false)
      ∧ ((readerLoop inputs buf s).s.hit_ready = false →
          (readerLoop inputs buf s).out.count ReaderEvent.condSignal = 0
            ∧ (readerLoop inputs buf s).s.hit_time = s.hit_time)
      ∧ (readerLoop inputs buf s).s.arm_time = s.arm_time := by
  intro inputs
  induction inputs with
  | nil =>
    intro buf s _ hr
    have e : readerLoop [] buf s = { s := s, buf := buf, returned := false, out := [] } := rfl
    rw [e]
    refine ⟨by simp, fun h => ?_, fun _ => ⟨rfl, rfl⟩, rfl⟩
    rw [hr] at h; cases h
  | cons inp rest ih =>
    intro buf s hma hhr
    -- what an outcome that leaves the record as it is gives
    have same : ∀ r : ReaderResult, r.s.record = s.record → ReaderEvent.condSignal ∉ r.out →
        r.out.count ReaderEvent.condSignal ≤ 1
        ∧ (r.s.hit_ready = true →
            ∃ i, (inp :: rest).find? isTargetRead = some i ∧ r.s.hit_time = i.clock
              ∧ r.out.count ReaderEvent.condSignal = 1 ∧ r.s.measurement_active = false)
        ∧ (r.s.hit_ready = false →
            r.out.count ReaderEvent.condSignal = 0 ∧ r.s.hit_time = s.hit_time)
        ∧ r.s.arm_time = s.arm_time := by
      intro r hrec hout
      obtain ⟨_, e2, e3, e4⟩ := record_eq _ _ hrec
      have hc := count_signal_zero _ hout
      refine ⟨by omega, fun h => ?_, fun _ => ⟨hc, e4⟩, e3⟩
      rw [e2, hhr] at h; cases h
    rcases readerLoop_cases inp rest buf s with ⟨out, he, hout⟩ | ⟨buf2, hk, hp, he⟩
      | ⟨buf2, hk, hp, hpid, he⟩
    · rw [he]
      apply same
      · rw [(readerExit_record _ _ _).1, deliver_record]
      · rw [(readerExit_record _ _ _).2]; simp [hout]
    · rw [he, deliver_running _ _ hk]
      have hnot : isTargetRead inp = false := by unfold isTargetRead; rw [hp]; rfl
      rw [List.find?_cons_of_neg _ (by simp [hnot])]
      exact ih buf2 s hma hhr
    · rw [he, deliver_running _ _ hk]
      cases hg : hitGuard (get_pid buf2) (deliver inp.sigint_lock s) with
      | true =>
        obtain ⟨g1, _, _, g4⟩ := (hitGuard_iff _ _).mp hg
        have hd := deliver_running _ _ g1
        rw [hd] at hg
        rw [hd, locked_step_hit _ _ _ hg]
        obtain ⟨i1, i2⟩ := readerLoop_idle rest buf2
          { s with hit_time := inp.clock, hit_ready := true, measurement_active := false }
          (Or.inl rfl)
        obtain ⟨e1, e2, e3, e4⟩ := record_eq _ _ i1
        have htarget : isTargetRead inp = true := by
          unfold isTargetRead
          rw [hp, ← hpid, g4]
          rfl
        unfold lockedPass
        rw [hd, if_pos hg]
        have hc : (ReaderEvent.condSignal :: (readerLoop rest buf2
            { s with hit_time := inp.clock, hit_ready := true,
                     measurement_active := false }).out).count ReaderEvent.condSignal = 1 := by
          rw [List.count_cons_self, count_signal_zero _ i2]
        refine ⟨by rw [hc], fun _ => ⟨inp, ?_, e4, hc, e1⟩, fun h => ?_, e3⟩
        · rw [List.find?_cons_of_pos _ htarget]
        · rw [e2] at h
          simp at h
      | false =>
        rw [locked_step_skip _ _ _ hg]
        unfold lockedPass
        rw [if_neg (by simp [hg])]
        by_cases hk2 : (deliver inp.sigint_lock s).keep_running = true
        · have hd := deliver_running _ _ hk2
          rw [hd] at hg ⊢
          have hnot : isTargetRead inp = false := by
            unfold isTargetRead
            rw [hp, ← hpid]
            cases hb : (get_pid buf2 == PID_TO_WATCH) with
            | false => rfl
            | true =>
              have : hitGuard (get_pid buf2) s = true :=
                (hitGuard_iff _ _).mpr ⟨by rw [← hd]; exact hk2, hma, hhr, by simpa using hb⟩
              rw [this] at hg; cases hg
          rw [List.find?_cons_of_neg _ (by simp [hnot])]
          exact ih buf2 s hma hhr
        · obtain ⟨i1, i2⟩ := readerLoop_idle rest buf2 (deliver inp.sigint_lock s)
            (Or.inr (by simpa using hk2))
          apply same
          · rw [i1, deliver_record]
          · exact i2

/-- Claim C3 (one hit per arm window). The block the reader runs under the lock sets
`hit_ready`, records `hit_time` and clears `measurement_active` exactly when
`keep_running` and `measurement_active` are set, `hit_ready` is clear and the
identifier is 0x0404; in every other state it leaves the shared state as it is, so
`hit_ready` goes from 0 to 1 only while armed. Consequently, for every sequence of
reader passes after one arm (any reads, SIGINT at any point, no further arm): at most
one hit is signalled; if a hit is recorded, its `hit_time` is the clock reading of
the first read that is a complete synced packet with the watched identifier; and
`arm_time` is untouched. Once a hit is recorded the block leaves a second target
packet without effect; and from the initial state (before any arm) no sequence of
reads changes the record or signals a hit. -/
theorem one_hit_per_arm :
    PID_TO_WATCH = 0x0404
    ∧ (∀ (pid : Nat) (clock : Timespec) (s : Shared),
        (hitGuard pid s = true
          ↔ (s.keep_running = true ∧ s.measurement_active = true ∧ s.hit_ready = false
              ∧ pid = PID_TO_WATCH))
        ∧ (hitGuard pid s = true →
            reader_locked_step pid clock s
              = { s with hit_time := clock, hit_ready := true, measurement_active := false })
        ∧ (hitGuard pid s = false → reader_locked_step pid clock s = s)
        ∧ (s.hit_ready = false → (reader_locked_step pid clock s).hit_ready = true →
            s.keep_running = true ∧ s.measurement_active = true ∧ pid = PID_TO_WATCH))
    ∧ (∀ (inputs : List ReaderInput) (buf : Mem) (arm_clock : Timespec) (s : Shared),
        (readerLoop inputs buf (arm arm_clock s)).out.count ReaderEvent.condSignal ≤ 1
        ∧ ((readerLoop inputs buf (arm arm_clock s)).s.hit_ready = true →
            ∃ inp, inputs.find? isTargetRead = some inp
              ∧ (readerLoop inputs buf (arm arm_clock s)).s.hit_time = inp.clock)
        ∧ (readerLoop inputs buf (arm arm_clock s)).s.arm_time = arm_clock)
    ∧ (∀ (pid : Nat) (c1 c2 : Timespec) (s : Shared), hitGuard pid s = true →
        reader_locked_step pid c2 (reader_locked_step pid c1 s) = reader_locked_step pid c1 s)
    ∧ (∀ (inputs : List ReaderInput) (buf : Mem),
        (readerLoop inputs buf initialShared).s.record = initialShared.record
        ∧ ReaderEvent.condSignal ∉ (readerLoop inputs buf initialShared).out) := by
  refine ⟨rfl, ?_, ?_, ?_, ?_⟩
  · intro pid clock s
    refine ⟨hitGuard_iff pid s, locked_step_hit pid clock s, locked_step_skip pid clock s, ?_⟩
    intro h0 h1
    cases hg : hitGuard pid s with
    | true =>
      obtain ⟨g1, g2, _, g4⟩ := (hitGuard_iff pid s).mp hg
      exact ⟨g1, g2, g4⟩
    | false =>
      rw [locked_step_skip pid clock s hg, h0] at h1
      cases h1
  · intro inputs buf arm_clock s
    obtain ⟨a1, a2, _, a4⟩ := readerLoop_armed inputs buf (arm arm_clock s) rfl rfl
    refine ⟨a1, fun h => ?_, a4⟩
    obtain ⟨inp, i1, i2, _⟩ := a2 h
    exact ⟨inp, i1, i2⟩
  · intro pid c1 c2 s hg
    rw [locked_step_hit pid c1 s hg]
    apply locked_step_skip
    cases hg2 : hitGuard pid
        { s with hit_time := c1, hit_ready := true, measurement_active := false } with
    | false => rfl
    | true =>
      obtain ⟨_, g2, _, _⟩ := (hitGuard_iff _ _).mp hg2
      cases g2
  · intro inputs buf
    exact readerLoop_idle inputs buf initialShared (Or.inl rfl)

/-- One byte of garbage ahead of the packets contradicts claim C8: the armed reader
consumes the packet 0x0404 and the packet that follows it in 188-byte reads, finds
no read that starts with 0x47, reaches the end of the stream and has recorded no
hit. -/
theorem reader_resync_counterexample :
    (∀ x ∈ ([0] : List Byte), x ≠ 0x47)
    ∧ (reader_thread_func
        (quietInputs ⟨1, 0⟩ ([0] ++ samplePacket 4 4 ++ samplePacket 0 1)) (fun _ => 0)
        (arm ⟨0, 0⟩ initialShared)).returned = true
    ∧ (reader_thread_func
        (quietInputs ⟨1, 0⟩ ([0] ++ samplePacket 4 4 ++ samplePacket 0 1)) (fun _ => 0)
        (arm ⟨0, 0⟩ initialShared)).s.hit_ready = false := by
  decide!

theorem readsOf_cons (n : Nat) (stream : List Byte) (h : stream ≠ []) :
    readsOf (n + 1) stream
      = ReadResult.bytes (stream.take 188) :: readsOf n (stream.drop 188) := by
  rw [readsOf, if_neg h]

theorem take_chunk (stream : List Byte) (h : 188 ≤ stream.length) :
    (stream.take 188).take TS_PACKET_SIZE = stream.take 188
    ∧ (stream.take 188).length = 188 := by
  have hl : (stream.take 188).length = 188 := by rw [List.length_take]; omega
  refine ⟨?_, hl⟩
  unfold TS_PACKET_SIZE
  rw [List.take_take]
  simp

/-- A pass with no SIGINT whose 188-byte read does not start with the sync byte
discards the whole read and leaves the shared state as it is. -/
theorem quiet_unsynced (n : Nat) (stream : List Byte) (clock : Timespec) (buf : Mem)
    (s : Shared) (hs : s.keep_running = true) (hlen : 188 ≤ stream.length)
    (h0 : stream.getD 0 0 ≠ 0x47) :
    readerLoop ((readsOf (n + 1) stream).map (quietPass clock)) buf s
      = readerLoop ((readsOf n (stream.drop 188)).map (quietPass clock))
          (writeAt buf 0 (stream.take 188)) s := by
  obtain ⟨t1, t2⟩ := take_chunk stream hlen
  have hne : stream ≠ [] := by intro h; rw [h] at hlen; simp at hlen
  rw [readsOf_cons n stream hne, List.map_cons,
    readerLoop_unsynced (quietPass clock (ReadResult.bytes (stream.take 188))) _ buf s
      (stream.take 188) hs rfl (by rw [t1, t2]; decide) (by rw [t1, t2]; decide)
      (by
        rw [t1, writeAt_zero_get _ _ 0 (by omega), List.getD_eq_getElem?_getD,
          List.getElem?_take_of_lt (by omega), ← List.getD_eq_getElem?_getD]
        exact h0),
    t1]
  rfl

/-- A pass with no SIGINT whose read is a complete synced packet: the block under
the lock runs with the identifier of that packet. -/
theorem quiet_packet (n : Nat) (stream : List Byte) (clock : Timespec) (buf : Mem)
    (s : Shared) (hs : s.keep_running = true) (hlen : 188 ≤ stream.length)
    (h0 : stream.getD 0 0 = 0x47) :
    readerLoop ((readsOf (n + 1) stream).map (quietPass clock)) buf s
      = lockedPass (quietPass clock (ReadResult.bytes (stream.take 188)))
          (writeAt buf 0 (stream.take 188)) s
          (readerLoop ((readsOf n (stream.drop 188)).map (quietPass clock))
            (writeAt buf 0 (stream.take 188))
            (reader_locked_step (get_pid fun k => stream.getD k 0) clock s)) := by
  obtain ⟨t1, t2⟩ := take_chunk stream hlen
  have hne : stream ≠ [] := by intro h; rw [h] at hlen; simp at hlen
  have hget : ∀ k, k < 188 → writeAt buf 0 (stream.take 188) k = stream.getD k 0 := by
    intro k hk
    rw [writeAt_zero_get _ _ k (by omega), List.getD_eq_getElem?_getD,
      List.getElem?_take_of_lt (by omega), ← List.getD_eq_getElem?_getD]
  have hpid : get_pid (writeAt buf 0 (stream.take 188)) = get_pid fun k => stream.getD k 0 := by
    unfold get_pid
    rw [hget 1 (by omega), hget 2 (by omega)]
  rw [readsOf_cons n stream hne, List.map_cons,
    readerLoop_packet (quietPass clock (ReadResult.bytes (stream.take 188))) _ buf s
      (stream.take 188) hs rfl (by rw [t1, t2]; decide) (by rw [t1, t2]; decide)
      (by rw [t1, hget 0 (by omega)]; exact not_not.mpr h0),
    t1, hpid]
  rfl

theorem get_pid_congr_arm (m1 m2 : Mem) (h1 : m1 1 = m2 1) (h2 : m1 2 = m2 2) :
    get_pid m1 = get_pid m2 := by
  unfold get_pid
  rw [h1, h2]

theorem lockedPass_state (inp : ReaderInput) (buf : Mem) (s : Shared) (r : ReaderResult) :
    (lockedPass inp buf s r).s = r.s := by
  unfold lockedPass
  split <;> rfl

/-- An armed reader that consumes back-to-back synced packets, one per read and with
no SIGINT, records a hit when one of them carries the watched identifier. -/
theorem reader_packets (clock : Timespec) :
    ∀ (pkts : List (List Byte)) (n : Nat) (buf : Mem) (s : Shared),
      s.keep_running = true → s.measurement_active = true → s.hit_ready = false →
      (∀ p ∈ pkts, p.length = 188 ∧ p.getD 0 0 = 0x47) →
      (∃ p ∈ pkts, get_pid (fun k => p.getD k 0) = PID_TO_WATCH) →
      pkts.flatten.length ≤ n →
        (readerLoop ((readsOf n pkts.flatten).map (quietPass clock)) buf s).s.hit_ready
          = true := by
  intro pkts
  induction pkts with
  | nil => intro n buf s _ _ _ _ hex; obtain ⟨p, hp, _⟩ := hex; cases hp
  | cons p ps ih =>
    intro n buf s hk hma hhr hpk hex hn
    obtain ⟨hpl, hsync⟩ := hpk p (List.mem_cons_self _ _)
    have hfl : (p :: ps).flatten.length = 188 + ps.flatten.length := by
      rw [List.flatten_cons, List.length_append, hpl]
    have hget : ∀ k, k < 188 → (p :: ps).flatten.getD k 0 = p.getD k 0 := by
      intro k hk2
      rw [List.flatten_cons, List.getD_eq_getElem?_getD, List.getD_eq_getElem?_getD,
        List.getElem?_append_left (by omega)]
    have hdrop : (p :: ps).flatten.drop 188 = ps.flatten := by
      rw [List.flatten_cons, ← hpl, List.drop_left]
    have hpid : get_pid (fun k => (p :: ps).flatten.getD k 0) = get_pid fun k => p.getD k 0 :=
      get_pid_congr_arm _ _ (hget 1 (by omega)) (hget 2 (by omega))
    obtain ⟨m, rfl⟩ : ∃ m, n = m + 1 := ⟨n - 1, by omega⟩
    rw [quiet_packet m _ clock buf s hk (by omega) (by rw [hget 0 (by omega)]; exact hsync),
      lockedPass_state, hdrop, hpid]
    by_cases ht : get_pid (fun k => p.getD k 0) = PID_TO_WATCH
    · have hg : hitGuard (get_pid fun k => p.getD k 0) s = true :=
        (hitGuard_iff _ _).mpr ⟨hk, hma, hhr, ht⟩
      rw [locked_step_hit _ _ _ hg]
      obtain ⟨i1, _⟩ := readerLoop_idle ((readsOf m ps.flatten).map (quietPass clock))
        (writeAt buf 0 ((p :: ps).flatten.take 188))
        { s with hit_time := clock, hit_ready := true, measurement_active := false }
        (Or.inl rfl)
      exact (record_eq _ _ i1).2.1
    · have hg : hitGuard (get_pid fun k => p.getD k 0) s = false := by
        cases hgv : hitGuard (get_pid fun k => p.getD k 0) s with
        | false => rfl
        | true => exact absurd ((hitGuard_iff _ _).mp hgv).2.2.2 ht
      rw [locked_step_skip _ _ _ hg]
      have hex2 : ∃ q ∈ ps, get_pid (fun k => q.getD k 0) = PID_TO_WATCH := by
        obtain ⟨q, hq, hqt⟩ := hex
        rcases List.mem_cons.mp hq with rfl | hq2
        · exact absurd hqt ht
        · exact ⟨q, hq2, hqt⟩
      exact ih m _ s hk hma hhr (fun q hq => hpk q (List.mem_cons_of_mem _ hq)) hex2
        (by omega)

/-- Whole reads of bytes that are not the sync byte are discarded one after the
other; the packets that follow them are then read on their boundaries. -/
theorem reader_garbage (clock : Timespec) (pkts : List (List Byte)) (s : Shared)
    (hk : s.keep_running = true) (hma : s.measurement_active = true)
    (hhr : s.hit_ready = false)
    (hpk : ∀ p ∈ pkts, p.length = 188 ∧ p.getD 0 0 = 0x47)
    (hex : ∃ p ∈ pkts, get_pid (fun k => p.getD k 0) = PID_TO_WATCH) :
    ∀ (k : Nat) (garbage : List Byte) (n : Nat) (buf : Mem),
      garbage.length = 188 * k → (∀ x ∈ garbage, x ≠ 0x47) →
      (garbage ++ pkts.flatten).length ≤ n →
        (readerLoop ((readsOf n (garbage ++ pkts.flatten)).map (quietPass clock)) buf s).s.hit_ready
          = true := by
  intro k
  induction k with
  | zero =>
    intro garbage n buf hlen _ hn
    have : garbage = [] := List.length_eq_zero.mp (by omega)
    subst this
    rw [List.nil_append] at hn ⊢
    exact reader_packets clock pkts n buf s hk hma hhr hpk hex hn
  | succ k ih =>
    intro garbage n buf hlen hg hn
    rw [List.length_append] at hn
    obtain ⟨m, rfl⟩ : ∃ m, n = m + 1 := ⟨n - 1, by omega⟩
    have h0 : (garbage ++ pkts.flatten).getD 0 0 ≠ 0x47 := by
      have hpos : 0 < garbage.length := by omega
      rw [List.getD_eq_getElem?_getD, List.getElem?_append_left hpos,
        List.getElem?_eq_getElem hpos]
      exact hg _ (List.getElem_mem hpos)
    rw [quiet_unsynced m _ clock buf s hk (by rw [List.length_append]; omega) h0,
      List.drop_append_of_le_length (by omega)]
    exact ih (garbage.drop 188) m _ (by rw [List.length_drop]; omega)
      (fun x hx => hg x (List.mem_of_mem_drop hx))
      (by rw [List.length_append, List.length_drop]; omega)

/-- Claim C8 as amended (unsynced reads in the reader of the Concurrent Engine). A
188-byte read that does not start with 0x47 is discarded whole: the pass leaves the
shared state as it is and the next read starts 188 bytes further on. So when the
number of leading garbage bytes (none of them 0x47) is a multiple of 188 and they are
followed by back-to-back synced 188-byte packets of which one has the identifier
0x0404, a reader that is armed, with `keep_running` set and no SIGINT delivered,
consuming the stream in 188-byte reads, records a hit. -/
theorem reader_hits_when_aligned (k : Nat) (garbage : List Byte) (pkts : List (List Byte))
    (clock : Timespec) (buf : Mem) (s : Shared)
    (hk : s.keep_running = true) (hma : s.measurement_active = true)
    (hhr : s.hit_ready = false)
    (hlen : garbage.length = 188 * k) (hg : ∀ x ∈ garbage, x ≠ 0x47)
    (hpk : ∀ p ∈ pkts, p.length = 188 ∧ p.getD 0 0 = 0x47)
    (hex : ∃ p ∈ pkts, get_pid (fun k => p.getD k 0) = PID_TO_WATCH) :
    (reader_thread_func (quietInputs clock (garbage ++ pkts.flatten)) buf s).s.hit_ready = true
    ∧ (∀ (n : Nat) (stream : List Byte) (buf2 : Mem), 188 ≤ stream.length →
        stream.getD 0 0 ≠ 0x47 →
          readerLoop ((readsOf (n + 1) stream).map (quietPass clock)) buf2 s
            = readerLoop ((readsOf n (stream.drop 188)).map (quietPass clock))
                (writeAt buf2 0 (stream.take 188)) s) := by
  refine ⟨?_, fun n stream buf2 h1 h2 => quiet_unsynced n stream clock buf2 s hk h1 h2⟩
  unfold reader_thread_func quietInputs
  exact reader_garbage clock pkts s hk hma hhr hpk hex k garbage _ buf hlen hg (Nat.le_refl _)

/-- 188 bytes of garbage, a packet 0x0001 and a packet 0x0404. -/
theorem reader_hits_when_aligned_witness :
    (reader_thread_func
      (quietInputs ⟨1, 0⟩ (List.replicate 188 0 ++ [samplePacket 0 1, samplePacket 4 4].flatten))
      (fun _ => 0) (arm ⟨0, 0⟩ initialShared)).s.hit_ready = true := by
  have hg : ∀ x ∈ (List.replicate 188 0 : List Byte), x ≠ 0x47 := by
    intro x hx
    rw [List.eq_of_mem_replicate hx]
    decide
  have hpk : ∀ p ∈ [samplePacket 0 1, samplePacket 4 4], p.length = 188 ∧ p.getD 0 0 = 0x47 := by
    decide
  have hex : ∃ p ∈ [samplePacket 0 1, samplePacket 4 4],
      get_pid (fun k => p.getD k 0) = PID_TO_WATCH := by decide
  exact (reader_hits_when_aligned 1 (List.replicate 188 0) _ ⟨1, 0⟩ (fun _ => 0)
    (arm ⟨0, 0⟩ initialShared) rfl rfl rfl (by simp) hg hpk hex).1

end Pid404ArmRx

namespace Pid404Rx

/-- A full buffer: its oldest 188 bytes are dropped and a read of 188 bytes is asked
for. -/
theorem stream_buffer_bounds_witness :
    (dropOldest { buffer := fun _ => 0, buf_len := 12032 }).buf_len = 11844
    ∧ readCount (dropOldest { buffer := fun _ => 0, buf_len := 12032 }) = 12032 - 11844 := by
  have hcap : (12032 : Nat) ≤ BUFFER_SIZE := by decide
  obtain ⟨hsize, _, h⟩ := stream_buffer_bounds
  obtain ⟨_, h2, _, h4, _⟩ := h { buffer := fun _ => 0, buf_len := 12032 } hcap
  have h5 := (h4 (by rw [hsize])).1
  rw [h2, h5, hsize]
  exact ⟨rfl, rfl⟩

end Pid404Rx

namespace Pid404ArmRx

/-- Two packets with the watched identifier after one arm: one hit is signalled, and
its time is the clock reading of the first. -/
theorem one_hit_per_arm_witness :
    (readerLoop
        [quietPass ⟨1, 0⟩ (ReadResult.bytes (samplePacket 4 4)),
         quietPass ⟨2, 0⟩ (ReadResult.bytes (samplePacket 4 4))]
        (fun _ => 0) (arm ⟨0, 0⟩ initialShared)).out.count ReaderEvent.condSignal ≤ 1
    ∧ (readerLoop
        [quietPass ⟨1, 0⟩ (ReadResult.bytes (samplePacket 4 4)),
         quietPass ⟨2, 0⟩ (ReadResult.bytes (samplePacket 4 4))]
        (fun _ => 0) (arm ⟨0, 0⟩ initialShared)).s.hit_ready = true
    ∧ (readerLoop
        [quietPass ⟨1, 0⟩ (ReadResult.bytes (samplePacket 4 4)),
         quietPass ⟨2, 0⟩ (ReadResult.bytes (samplePacket 4 4))]
        (fun _ => 0) (arm ⟨0, 0⟩ initialShared)).s.hit_time = ⟨1, 0⟩ := by
  obtain ⟨_, _, h, _⟩ := one_hit_per_arm
  exact ⟨(h _ (fun _ => 0) ⟨0, 0⟩ initialShared).1, by decide!, by decide!⟩

end Pid404ArmRx

end DvbLatency
